import Mathlib

/-!
Verification development for the detalloc deterministic pool allocator
(repository lvntky/detalloc).

The repository ships the public header `include/detalloc.h` (types, error
codes, constants, API declarations) and a source file `src/detalloc.c` that
implements only `det_version_string` and `det_default_config`.  The pool
engine itself (`det_alloc_size`, `det_alloc_init`, `det_alloc`, `det_calloc`,
`det_free`, `det_alloc_usable_size`, `det_get_stats`, `det_reset_stats`) is
declared but not implemented in the sources, so those operations are
modelled from the specification text, faithful to its words.  Machine
addresses are modelled as natural numbers (byte offsets), `size_t`
arithmetic is modelled as natural-number arithmetic with an explicit
overflow check against `2 ^ 64 - 1`, and C null pointers are modelled with
`Option`.
-/

/- ====================================================================== -/
/- Constants and enumerations from include/detalloc.h                     -/
/- ====================================================================== -/

/-- Maximum number of pool size classes (`DET_MAX_POOLS`, detalloc.h). -/
def DET_MAX_POOLS : Nat := 16

/-- Cache line size for alignment (`DET_CACHE_LINE_SIZE`, detalloc.h). -/
def DET_CACHE_LINE_SIZE : Nat := 64

/-- Alignment for all allocations (`DET_ALIGN`, detalloc.h). -/
def DET_ALIGN : Nat := 8

/-- Major version (`DETALLOC_VERSION_MAJOR`, detalloc.h). -/
def DETALLOC_VERSION_MAJOR : Nat := 0

/-- Minor version (`DETALLOC_VERSION_MINOR`, detalloc.h). -/
def DETALLOC_VERSION_MINOR : Nat := 1

/-- Patch version (`DETALLOC_VERSION_PATCH`, detalloc.h). -/
def DETALLOC_VERSION_PATCH : Nat := 0

/-- Largest value representable in a `size_t` (64-bit model). -/
def SIZE_MAX : Nat := 2 ^ 64 - 1

/-- Error and status codes returned by detalloc (`det_error_t`, detalloc.h). -/
inductive det_error_t where
  | DET_OK
  | DET_ERR_INVALID_PARAM
  | DET_ERR_OUT_OF_MEMORY
  | DET_ERR_POOL_FULL
  | DET_ERR_INVALID_PTR
  | DET_ERR_CORRUPTED
  | DET_ERR_NOT_INITIALIZED
deriving Repr, DecidableEq

export det_error_t (DET_OK DET_ERR_INVALID_PARAM DET_ERR_OUT_OF_MEMORY
  DET_ERR_POOL_FULL DET_ERR_INVALID_PTR DET_ERR_CORRUPTED
  DET_ERR_NOT_INITIALIZED)

/-- Pool configuration for a single size class (`det_pool_config_t`,
detalloc.h): block size in bytes, number of blocks, cache alignment flag. -/
structure det_pool_config_t where
  block_size : Nat
  num_blocks : Nat
  cache_aligned : Bool
deriving Repr, DecidableEq

/-- Global allocator configuration (`det_config_t`, detalloc.h).  The C
struct carries a fixed array `pools[DET_MAX_POOLS]` together with an
authoritative `num_pools` count; this is modelled as the list of the first
`num_pools` entries.  The `error_handler` function pointer is a pure
notification side channel (its presence never changes a returned outcome)
and is not modelled. -/
structure det_config_t where
  pools : List det_pool_config_t
  enable_stats : Bool
  enable_validation : Bool
  thread_safe : Bool
deriving Repr, DecidableEq

/-- Per-pool statistics (`det_pool_stats_t`, detalloc.h).  The cycle-count
fields (`total_alloc_cycles`, `total_free_cycles`) measure physical CPU
time and are outside the shallow embedding. -/
structure det_pool_stats_t where
  total_allocs : Nat := 0
  total_frees : Nat := 0
  current_usage : Nat := 0
  peak_usage : Nat := 0
  failed_allocs : Nat := 0
deriving Repr, DecidableEq

/-- Global allocator statistics (`det_stats_t`, detalloc.h), without the
physical-time WCET cycle fields. -/
structure det_stats_t where
  total_memory : Nat
  used_memory : Nat
  peak_memory : Nat
  num_active_pools : Nat
  pool_stats : List det_pool_stats_t
deriving Repr, DecidableEq

/- ====================================================================== -/
/- The pool engine, modelled from the spec                                -/
/- ====================================================================== -/

/-- Modelled from the spec: one Pool of the allocator (spec section 3).
The implementation of the Pool structure is missing from the sources.  A
Pool records the base byte offset and extent of its payload region inside
the caller buffer, its (alignment-rounded) block size, block alignment,
capacity, current free count, the head of the intrusive free list
(`none` is the sentinel), the per-block next-free links that the source
stores inside the free blocks themselves, the optional occupancy bitmap
(`true` = occupied; empty when validation is disabled), and the payload
bytes of every block. -/
structure Pool where
  block_size : Nat
  align : Nat
  base : Nat
  capacity : Nat
  free_count : Nat
  head : Option Nat
  next : List (Option Nat)
  bitmap : List Bool
  data : List (List Nat)
  stats : det_pool_stats_t
deriving Repr, DecidableEq

/-- Default Pool value used only as the `List.getD` fallback. -/
def poolDefault : Pool :=
  { block_size := 0, align := 1, base := 0, capacity := 0, free_count := 0
    head := none, next := [], bitmap := [], data := [], stats := {} }

/-- Modelled from the spec: the allocator handle (`det_allocator_t`,
declared opaque in detalloc.h; the structure itself is missing from the
sources).  It owns the ordered set of Pools, a copy of the active
configuration flags, and the allocator-wide statistics aggregates. -/
structure det_allocator_t where
  pools : List Pool
  config : det_config_t
  enable_stats : Bool
  enable_validation : Bool
  total_memory : Nat
  used_memory : Nat
  peak_memory : Nat
deriving Repr, DecidableEq

/-- Align `n` up to the next multiple of `a` (`DET_ALIGN_UP`, detalloc.h;
the macro uses a power-of-two bit mask, which agrees with this rounded
division for the power-of-two alignments 8 and 64 used by the engine). -/
def DET_ALIGN_UP (n a : Nat) : Nat := ((n + a - 1) / a) * a

/-- Alignment of one pool: the cache line size when `cache_aligned` is set,
otherwise the configured default alignment (spec section 4.2). -/
def det_pool_align (pc : det_pool_config_t) : Nat :=
  if pc.cache_aligned then DET_CACHE_LINE_SIZE else DET_ALIGN

/-- Layout descriptor of one pool produced by the Sizing Engine. -/
structure det_pool_desc where
  base : Nat
  stride : Nat
  align : Nat
  nblocks : Nat
deriving Repr, DecidableEq

/-- Modelled from the spec: the layout walk shared by the Sizing Engine and
initialization (spec sections 4.1 and 4.2).  Starting from offset `off`,
each active pool contributes its optional validation bitmap, alignment
padding, and an aligned payload region of `num_blocks` slots, where the
slot stride is the block size rounded up to the pool alignment so the
slots are identically sized and aligned (spec section 2).  Returns the
total required size and the descriptor of every pool. -/
def det_layout (validation : Bool) : Nat → List det_pool_config_t →
    Nat × List det_pool_desc
  | off, [] => (off, [])
  | off, pc :: pcs =>
    let al := det_pool_align pc
    let stride := DET_ALIGN_UP pc.block_size al
    let off1 := off + (if validation then (pc.num_blocks + 7) / 8 else 0)
    let base := DET_ALIGN_UP off1 al
    let off2 := base + pc.num_blocks * stride
    let rest := det_layout validation off2 pcs
    (rest.1, ⟨base, stride, al, pc.num_blocks⟩ :: rest.2)

/-- Modelled from the spec: byte size of the allocator bookkeeping header
placed at the start of the caller buffer (spec section 4.2, "bookkeeping
header"; the concrete figure is a model constant). -/
def det_header_size : Nat := 64

/-- The active pools of a configuration: entries with a zero block size
mark unused slots and are excluded, and the remaining specifications are
sorted ascending by block size before use (spec section 3). -/
def det_active_pools (cfg : det_config_t) : List det_pool_config_t :=
  (cfg.pools.filter (fun pc => 0 < pc.block_size)).insertionSort
    (fun p q => p.block_size ≤ q.block_size)

/-- Modelled from the spec: the Sizing Engine `det_alloc_size` (declared in
detalloc.h, implementation missing from the sources).  Returns the minimum
buffer size for a configuration; returns 0 on a null configuration, a pool
count exceeding `DET_MAX_POOLS`, or arithmetic overflow of the summed
size (spec section 4.1). -/
def det_alloc_size (config : Option det_config_t) : Nat :=
  match config with
  | none => 0
  | some cfg =>
    if DET_MAX_POOLS < cfg.pools.length then 0
    else
      let t := (det_layout cfg.enable_validation det_header_size
                  (det_active_pools cfg)).1
      if SIZE_MAX < t then 0 else t

/-- Configuration well-formedness checked by initialization: the pool count
is within bound and each active pool (nonzero block size) has a positive
block count (spec section 4.2). -/
def det_config_ok (cfg : det_config_t) : Bool :=
  decide (cfg.pools.length ≤ DET_MAX_POOLS) &&
  cfg.pools.all (fun pc => pc.block_size == 0 || decide (0 < pc.num_blocks))

/-- Intrusive free-list links of a freshly initialized pool: a single
ascending chain block 0 → 1 → ... → capacity − 1 → sentinel
(spec section 4.2). -/
def det_chain (n : Nat) : List (Option Nat) :=
  (List.range n).map (fun i => if i + 1 < n then some (i + 1) else none)

/-- Modelled from the spec: construction of one Pool at initialization
(spec section 4.2): free list a single ascending chain with head 0,
`free_count = capacity`, occupancy bitmap all clear when validation is
enabled, payload bytes taken from the caller buffer `mem` (the memory is
not zero-initialized). -/
def det_mk_pool (validation : Bool) (mem : List Nat) (d : det_pool_desc) :
    Pool :=
  { block_size := d.stride
    align := d.align
    base := d.base
    capacity := d.nblocks
    free_count := d.nblocks
    head := if 0 < d.nblocks then some 0 else none
    next := det_chain d.nblocks
    bitmap := if validation then List.replicate d.nblocks false else []
    data := (List.range d.nblocks).map (fun i =>
      (List.range d.stride).map (fun j => mem.getD (d.base + i * d.stride + j) 0))
    stats := {} }

/-- Modelled from the spec: `det_alloc_init` (declared in detalloc.h,
implementation missing from the sources).  Validates the buffer, the
configuration well-formedness, and `size ≥ det_alloc_size config`; on
success partitions the buffer and initializes every active Pool, otherwise
returns a null handle (spec section 4.2).  The caller buffer is modelled
as its byte contents (`none` is the C null pointer) together with the
separately passed byte count `size` used for the capacity check. -/
def det_alloc_init (memory : Option (List Nat)) (size : Nat)
    (config : Option det_config_t) : Option det_allocator_t :=
  match memory, config with
  | some mem, some cfg =>
    if det_config_ok cfg then
      let required := det_alloc_size (some cfg)
      if required = 0 then none
      else if size < required then none
      else
        let descs := (det_layout cfg.enable_validation det_header_size
                        (det_active_pools cfg)).2
        some { pools := descs.map (det_mk_pool cfg.enable_validation mem)
               config := cfg
               enable_stats := cfg.enable_stats
               enable_validation := cfg.enable_validation
               total_memory := required
               used_memory := 0
               peak_memory := 0 }
    else none
  | _, _ => none

/-- Statistics update on a successful allocation (spec section 4.6):
total count, current usage +1, peak usage as a running maximum. -/
def statsOnAlloc (enabled : Bool) (st : det_pool_stats_t) : det_pool_stats_t :=
  if enabled then
    { st with total_allocs := st.total_allocs + 1
              current_usage := st.current_usage + 1
              peak_usage := max st.peak_usage (st.current_usage + 1) }
  else st

/-- Statistics update on a successful free (spec section 4.6):
total count, current usage −1, peak untouched. -/
def statsOnFree (enabled : Bool) (st : det_pool_stats_t) : det_pool_stats_t :=
  if enabled then
    { st with total_frees := st.total_frees + 1
              current_usage := st.current_usage - 1 }
  else st

/-- Pool selection (spec section 4.3): index of the first Pool, in the
ascending order fixed at initialization, whose block size fits the request
and whose free list is non-empty (best fit with escalation). -/
def det_select_pool : List Pool → Nat → Option Nat
  | [], _ => none
  | p :: ps, sz =>
    if decide (sz ≤ p.block_size) && p.head.isSome then some 0
    else (det_select_pool ps sz).map (· + 1)

/-- Whether any configured Pool is large enough for the request; when this
fails the allocation error is invalid-parameter rather than pool-full
(spec section 4.3). -/
def det_fits (ps : List Pool) (sz : Nat) : Bool :=
  ps.any (fun p => decide (sz ≤ p.block_size))

/-- Failed-allocation counter bump on pool-full (spec section 4.6),
charged to the first Pool that fits the request. -/
def det_bump_failed (a : det_allocator_t) (sz : Nat) : det_allocator_t :=
  if a.enable_stats then
    match a.pools.findIdx? (fun p => decide (sz ≤ p.block_size)) with
    | some i =>
      let p := a.pools.getD i poolDefault
      let p' := { p with stats := { p.stats with
                    failed_allocs := p.stats.failed_allocs + 1 } }
      { a with pools := a.pools.set i p' }
    | none => a
  else a

/-- Result of an allocation: returned address (`none` is the C null
pointer), status code, and the allocator state after the call. -/
structure det_alloc_result where
  ptr : Option Nat
  err : det_error_t
  state : det_allocator_t
deriving Repr, DecidableEq

/-- Modelled from the spec: `det_alloc` (declared in detalloc.h,
implementation missing from the sources).  Selects the first fitting
non-exhausted Pool and pops the head of its free list: the popped block
next-free link becomes the new head, the block is marked occupied,
`free_count` decreases, and the block address is returned.  With no
fitting free block the call fails pool-full; with no fitting size class at
all it fails invalid-parameter (spec section 4.3). -/
def det_alloc (a : det_allocator_t) (size : Nat) : det_alloc_result :=
  match det_select_pool a.pools size with
  | some i =>
    let p := a.pools.getD i poolDefault
    match p.head with
    | some h =>
      let addr := p.base + h * p.block_size
      let p' := { p with head := p.next.getD h none
                         free_count := p.free_count - 1
                         bitmap := p.bitmap.set h true
                         stats := statsOnAlloc a.enable_stats p.stats }
      ⟨some addr, DET_OK,
        { a with pools := a.pools.set i p'
                 used_memory :=
                   if a.enable_stats then a.used_memory + p.block_size
                   else a.used_memory
                 peak_memory :=
                   if a.enable_stats then
                     max a.peak_memory (a.used_memory + p.block_size)
                   else a.peak_memory }⟩
    | none => ⟨none, DET_ERR_POOL_FULL, a⟩
  | none =>
    if det_fits a.pools size then
      ⟨none, DET_ERR_POOL_FULL, det_bump_failed a size⟩
    else
      ⟨none, DET_ERR_INVALID_PARAM, a⟩

/-- Address resolution (spec section 4.4): scan the Pools in order for the
first whose byte range `[base, base + capacity * block_size)` contains the
address; return its index together with the zero-based block index and the
byte offset inside that block. -/
def det_locate : List Pool → Nat → Option (Nat × Nat × Nat)
  | [], _ => none
  | p :: ps, addr =>
    if decide (p.base ≤ addr) &&
       decide (addr < p.base + p.capacity * p.block_size) then
      some (0, (addr - p.base) / p.block_size, (addr - p.base) % p.block_size)
    else (det_locate ps addr).map (fun r => (r.1 + 1, r.2))

/-- Occupancy bit of block `i` (`true` = occupied); out-of-range reads
report occupied so that they can never be mistaken for a free block. -/
def det_bit (bm : List Bool) (i : Nat) : Bool := bm.getD i true

/-- Result of a free: status code and the allocator state after the call. -/
structure det_free_result where
  err : det_error_t
  state : det_allocator_t
deriving Repr, DecidableEq

/-- Modelled from the spec: `det_free` (declared in detalloc.h,
implementation missing from the sources).  Null is a no-op; an address
outside every Pool range or misaligned to its Pool block boundary is an
invalid-pointer error; with validation enabled an already-clear occupancy
bit is a double free reported as corruption.  On success the occupancy bit
is cleared, the current head is written into the block storage as its
next-free link, the head becomes this block index, and `free_count`
increases (spec section 4.4). -/
def det_free (a : det_allocator_t) (ptr : Option Nat) : det_free_result :=
  match ptr with
  | none => ⟨DET_OK, a⟩
  | some addr =>
    match det_locate a.pools addr with
    | none => ⟨DET_ERR_INVALID_PTR, a⟩
    | some (i, idx, off) =>
      if off ≠ 0 then ⟨DET_ERR_INVALID_PTR, a⟩
      else
        let p := a.pools.getD i poolDefault
        if a.enable_validation && !(det_bit p.bitmap idx) then
          ⟨DET_ERR_CORRUPTED, a⟩
        else
          let p' := { p with bitmap := p.bitmap.set idx false
                             next := p.next.set idx p.head
                             head := some idx
                             free_count := p.free_count + 1
                             stats := statsOnFree a.enable_stats p.stats }
          ⟨DET_OK,
            { a with pools := a.pools.set i p'
                     used_memory :=
                       if a.enable_stats then a.used_memory - p.block_size
                       else a.used_memory }⟩

/-- First `n` bytes of a block zeroed, remaining bytes unchanged. -/
def det_zero_fill (l : List Nat) (n : Nat) : List Nat :=
  (List.range l.length).map (fun j => if j < n then 0 else l.getD j 0)

/-- Zero-fill of `n` bytes starting at `addr` (the `calloc` memset,
spec section 4.3); resolves the owning block and clears its first
`n` payload bytes. -/
def det_memset0 (a : det_allocator_t) (addr n : Nat) : det_allocator_t :=
  match det_locate a.pools addr with
  | some (i, b, _off) =>
    let p := a.pools.getD i poolDefault
    let p' := { p with data := p.data.set b (det_zero_fill (p.data.getD b []) n) }
    { a with pools := a.pools.set i p' }
  | none => a

/-- Modelled from the spec: `det_calloc` (declared in detalloc.h,
implementation missing from the sources): identical selection and pop to
`det_alloc`, followed by a zero-fill of exactly the requested byte count
(spec section 4.3). -/
def det_calloc (a : det_allocator_t) (size : Nat) : det_alloc_result :=
  let r := det_alloc a size
  match r.ptr with
  | some addr => { r with state := det_memset0 r.state addr size }
  | none => r

/-- Byte read at an address through the allocator model (used to state the
`calloc` zero-fill property). -/
def det_read_byte (a : det_allocator_t) (addr : Nat) : Nat :=
  match det_locate a.pools addr with
  | some (i, b, off) => ((a.pools.getD i poolDefault).data.getD b []).getD off 0
  | none => 0

/-- Modelled from the spec: `det_alloc_usable_size` (declared in
detalloc.h, implementation missing from the sources).  Resolves the
pointer exactly as `det_free` does, without mutating any state, and
returns the owning Pool fixed block size; returns 0 for an unresolvable or
misaligned pointer (spec section 4.5). -/
def det_alloc_usable_size (a : det_allocator_t) (ptr : Option Nat) : Nat :=
  match ptr with
  | none => 0
  | some addr =>
    match det_locate a.pools addr with
    | some (i, _b, off) =>
      if off = 0 then (a.pools.getD i poolDefault).block_size else 0
    | none => 0

/-- Modelled from the spec: `det_get_stats` (declared in detalloc.h,
implementation missing from the sources): a consistent snapshot copy,
available only when statistics are enabled (spec section 4.6). -/
def det_get_stats (a : det_allocator_t) : Option det_stats_t :=
  if a.enable_stats then
    some { total_memory := a.total_memory
           used_memory := a.used_memory
           peak_memory := a.peak_memory
           num_active_pools := a.pools.length
           pool_stats := a.pools.map (·.stats) }
  else none

/-- Modelled from the spec: `det_reset_stats` (declared in detalloc.h,
implementation missing from the sources): zeroes the cumulative counters
(totals and failures) of every Pool; the peak fields survive the reset,
and the current-usage gauge keeps reflecting the outstanding allocations
(spec sections 4.6 and 8). -/
def det_reset_stats (a : det_allocator_t) : det_allocator_t :=
  { a with pools := a.pools.map (fun p =>
      { p with stats := { total_allocs := 0
                          total_frees := 0
                          current_usage := p.stats.current_usage
                          peak_usage := p.stats.peak_usage
                          failed_allocs := 0 } }) }

/-- One client-visible mutating operation of the allocator. -/
inductive det_op where
  | op_alloc (sz : Nat)
  | op_calloc (sz : Nat)
  | op_free (p : Option Nat)
  | op_reset
deriving Repr, DecidableEq

/-- Effect of one operation on the allocator state. -/
def det_step (a : det_allocator_t) : det_op → det_allocator_t
  | .op_alloc sz => (det_alloc a sz).state
  | .op_calloc sz => (det_calloc a sz).state
  | .op_free p => (det_free a p).state
  | .op_reset => det_reset_stats a

/-- Effect of a sequence of operations on the allocator state. -/
def det_run (a : det_allocator_t) (ops : List det_op) : det_allocator_t :=
  ops.foldl det_step a

/-- Repeated allocation: perform `k` allocations of `sz` bytes, returning
the list of results in order together with the final state. -/
def det_alloc_seq (a : det_allocator_t) (sz : Nat) :
    Nat → List (Option Nat) × det_allocator_t
  | 0 => ([], a)
  | k + 1 =>
    let r := det_alloc_seq a sz k
    let r' := det_alloc r.2 sz
    (r.1 ++ [r'.ptr], r'.state)

/- ====================================================================== -/
/- Code under src: det_version_string and det_default_config              -/
/- ====================================================================== -/

/-- The function `det_version_string` from src/detalloc.c: it reads no
state and returns the literal string "0.1.0".  The unread `globals`
argument stands for the ambient process state, making the absence of any
global read explicit in the embedding. -/
def det_version_string (_globals : List Nat) : String := "0.1.0"

/-- The record of field assignments performed by the body of
`det_default_config` in src/detalloc.c: it writes `block_size`,
`num_blocks`, `align`, and `thread_safe` on its local `det_config_t`
variable.  The macros `DET_DEFAULT_BLOCK_SIZE` and `DET_DEFAULT_ALIGN` it
references are defined nowhere in the repository and are therefore passed
as parameters. -/
structure det_default_config_result where
  block_size : Nat
  num_blocks : Nat
  align : Nat
  thread_safe : Bool
deriving Repr, DecidableEq

/-- The function `det_default_config` from src/detalloc.c, embedded as the
record of the assignments its body performs.  The unread `globals`
argument stands for the ambient process state. -/
def det_default_config (DET_DEFAULT_BLOCK_SIZE DET_DEFAULT_ALIGN : Nat)
    (_globals : List Nat) : det_default_config_result :=
  { block_size := DET_DEFAULT_BLOCK_SIZE
    num_blocks := 0
    align := DET_DEFAULT_ALIGN
    thread_safe := false }

/-- Field names of the struct `det_config_t` declared in
include/detalloc.h, lines 134-148. -/
def det_config_t_field_names : List String :=
  ["pools", "num_pools", "enable_stats", "enable_validation",
   "thread_safe", "error_handler"]

/-- Field names assigned by the body of `det_default_config` in
src/detalloc.c, lines 5-14. -/
def det_default_config_assigned_fields : List String :=
  ["block_size", "num_blocks", "align", "thread_safe"]

/- ====================================================================== -/
/- Helper lemmas                                                          -/
/- ====================================================================== -/

/-- Reading a just-written list cell. -/
theorem det_getD_set_self {α : Type} (l : List α) (i : Nat) (x d : α)
    (h : i < l.length) : (l.set i x).getD i d = x := by
  induction l generalizing i with
  | nil => simp at h
  | cons a t ih =>
    cases i with
    | zero => rfl
    | succ j => simpa using ih j (by simpa using h)

/-- Reading a list cell other than the written one. -/
theorem det_getD_set_ne {α : Type} (l : List α) (i j : Nat) (x d : α)
    (h : i ≠ j) : (l.set i x).getD j d = l.getD j d := by
  induction l generalizing i j with
  | nil => rfl
  | cons a t ih =>
    cases i with
    | zero =>
      cases j with
      | zero => exact absurd rfl h
      | succ k => rfl
    | succ i' =>
      cases j with
      | zero => rfl
      | succ k => simpa using ih i' k (fun hh => h (by rw [hh]))

/-- Membership after a list write. -/
theorem det_mem_set {α : Type} (l : List α) (i : Nat) (x a : α)
    (h : a ∈ l.set i x) : a = x ∨ a ∈ l := by
  induction l generalizing i with
  | nil => simp at h
  | cons b t ih =>
    cases i with
    | zero =>
      rcases (List.mem_cons).1 h with h | h
      · exact Or.inl h
      · exact Or.inr (List.mem_cons_of_mem _ h)
    | succ j =>
      rcases (List.mem_cons).1 h with h | h
      · exact Or.inr (h ▸ List.mem_cons_self _ _)
      · rcases ih j h with h | h
        · exact Or.inl h
        · exact Or.inr (List.mem_cons_of_mem _ h)

/-- The alignment divides the rounded-up value. -/
theorem det_align_up_dvd (n a : Nat) : a ∣ DET_ALIGN_UP n a := by
  unfold DET_ALIGN_UP
  exact Dvd.intro _ (Nat.mul_comm _ _)

/-- Rounding up to an alignment never shrinks. -/
theorem det_le_align_up (n a : Nat) (ha : 0 < a) : n ≤ DET_ALIGN_UP n a := by
  have hmod := Nat.div_add_mod (n + a - 1) a
  rw [Nat.mul_comm] at hmod
  have hlt : (n + a - 1) % a < a := Nat.mod_lt _ ha
  unfold DET_ALIGN_UP
  omega

/-- Inversion of a successful initialization: the checks passed and the
returned allocator is the literal initial state. -/
theorem det_alloc_init_inv {mem : List Nat} {size : Nat}
    {cfg : det_config_t} {a : det_allocator_t}
    (h : det_alloc_init (some mem) size (some cfg) = some a) :
    det_config_ok cfg = true ∧ det_alloc_size (some cfg) ≠ 0 ∧
    det_alloc_size (some cfg) ≤ size ∧
    a = { pools := ((det_layout cfg.enable_validation det_header_size
                      (det_active_pools cfg)).2).map
                    (det_mk_pool cfg.enable_validation mem)
          config := cfg
          enable_stats := cfg.enable_stats
          enable_validation := cfg.enable_validation
          total_memory := det_alloc_size (some cfg)
          used_memory := 0
          peak_memory := 0 } := by
  by_cases h1 : det_config_ok cfg
  · by_cases h2 : det_alloc_size (some cfg) = 0
    · simp [det_alloc_init, h1, h2] at h
    · by_cases h3 : size < det_alloc_size (some cfg)
      · simp [det_alloc_init, h1, h2, h3] at h
      · simp only [det_alloc_init, h1, if_true, h2, h3, if_neg, if_false] at h
        exact ⟨h1, h2, Nat.le_of_not_lt h3, (Option.some_inj.1 h).symm⟩
  · simp [det_alloc_init, h1] at h

/-- Characterization of initialization success. -/
theorem det_alloc_init_isSome (mem : List Nat) (size : Nat)
    (cfg : det_config_t) :
    (det_alloc_init (some mem) size (some cfg)).isSome = true ↔
    (det_config_ok cfg = true ∧ det_alloc_size (some cfg) ≠ 0 ∧
     det_alloc_size (some cfg) ≤ size) := by
  constructor
  · intro h
    rcases Option.isSome_iff_exists.1 h with ⟨a, ha⟩
    rcases det_alloc_init_inv ha with ⟨h1, h2, h3, _⟩
    exact ⟨h1, h2, h3⟩
  · rintro ⟨h1, h2, h3⟩
    simp [det_alloc_init, h1, h2, Nat.not_lt.2 h3]

/-- Well-formed configuration: the initialization checks pass and the
sizing does not overflow. -/
def det_config_wf (cfg : det_config_t) : Prop :=
  det_config_ok cfg = true ∧ det_alloc_size (some cfg) ≠ 0

/- ====================================================================== -/
/- Claim theorems                                                         -/
/- ====================================================================== -/

/-- C7: `det_free` called with a null pointer is a no-op: it reports no
error (`DET_OK`) and returns the allocator state unchanged, for every
allocator state. -/
theorem det_free_null_noop (a : det_allocator_t) :
    det_free a none = ⟨DET_OK, a⟩ := rfl

/-- C3: round-trip between the Sizing Engine and initialization: for every
well-formed configuration, `det_alloc_init` with a buffer of exactly
`det_alloc_size cfg` bytes succeeds, and with one byte fewer it fails
(returns the null handle, the out-of-memory outcome of initialization). -/
theorem det_alloc_init_size_roundtrip (cfg : det_config_t) (mem : List Nat)
    (hwf : det_config_wf cfg) :
    (det_alloc_init (some mem) (det_alloc_size (some cfg))
       (some cfg)).isSome = true ∧
    det_alloc_init (some mem) (det_alloc_size (some cfg) - 1)
       (some cfg) = none := by
  rcases hwf with ⟨h1, h2⟩
  constructor
  · exact (det_alloc_init_isSome _ _ _).2 ⟨h1, h2, Nat.le_refl _⟩
  · have hlt : det_alloc_size (some cfg) - 1 < det_alloc_size (some cfg) :=
      Nat.sub_lt (Nat.pos_of_ne_zero h2) Nat.one_pos
    simp only [det_alloc_init, h1, if_true, h2, if_neg, hlt, if_pos]
    simp [h2, hlt]

/-- Witness for C3 at a concrete configuration: one pool of four blocks of
64 bytes needs 320 bytes; 320 succeed and 319 fail. -/
theorem det_alloc_init_size_roundtrip_witness :
    (det_alloc_init (some []) (det_alloc_size
       (some ⟨[⟨64, 4, false⟩], false, false, false⟩))
       (some ⟨[⟨64, 4, false⟩], false, false, false⟩)).isSome = true ∧
    det_alloc_init (some []) (det_alloc_size
       (some ⟨[⟨64, 4, false⟩], false, false, false⟩) - 1)
       (some ⟨[⟨64, 4, false⟩], false, false, false⟩) = none :=
  det_alloc_init_size_roundtrip ⟨[⟨64, 4, false⟩], false, false, false⟩ []
    ⟨by decide, by decide⟩

/-- C4: `det_alloc_size` returns 0 on a null configuration, on a pool
count exceeding `DET_MAX_POOLS`, and on arithmetic overflow of the summed
layout size; otherwise it returns the minimum buffer size for the
configuration, in the sense that initialization succeeds exactly for
buffers at least this large.  Purity in its argument holds by construction
of the embedding (it is a function of the configuration alone). -/
theorem det_alloc_size_spec :
    det_alloc_size none = 0 ∧
    (∀ cfg : det_config_t, DET_MAX_POOLS < cfg.pools.length →
       det_alloc_size (some cfg) = 0) ∧
    (∀ cfg : det_config_t, cfg.pools.length ≤ DET_MAX_POOLS →
       SIZE_MAX < (det_layout cfg.enable_validation det_header_size
                     (det_active_pools cfg)).1 →
       det_alloc_size (some cfg) = 0) ∧
    (∀ (cfg : det_config_t) (mem : List Nat) (sz : Nat), det_config_wf cfg →
       ((det_alloc_init (some mem) sz (some cfg)).isSome = true ↔
         det_alloc_size (some cfg) ≤ sz)) := by
  refine ⟨rfl, ?_, ?_, ?_⟩
  · intro cfg h
    simp [det_alloc_size, h]
  · intro cfg h1 h2
    simp [det_alloc_size, Nat.not_lt.2 h1, h2]
  · intro cfg mem sz hwf
    rw [det_alloc_init_isSome]
    exact ⟨fun h => h.2.2, fun h => ⟨hwf.1, hwf.2, h⟩⟩

/-- Witness for C4: the null case, a 17-pool configuration, an overflowing
configuration, and minimality at a concrete configuration. -/
theorem det_alloc_size_spec_witness :
    det_alloc_size (some ⟨List.replicate 17 ⟨8, 1, false⟩,
      false, false, false⟩) = 0 ∧
    det_alloc_size (some ⟨[⟨2 ^ 64, 1, false⟩], false, false, false⟩) = 0 ∧
    ((det_alloc_init (some []) 320
       (some ⟨[⟨64, 4, false⟩], false, false, false⟩)).isSome = true ↔
      det_alloc_size (some ⟨[⟨64, 4, false⟩], false, false, false⟩) ≤ 320) :=
  ⟨det_alloc_size_spec.2.1 _ (by decide),
   det_alloc_size_spec.2.2.1 _ (by decide) (by decide),
   det_alloc_size_spec.2.2.2 _ [] 320 ⟨by decide, by decide⟩⟩

/-- C9: `det_version_string` always returns the literal "0.1.0", the same
value on every call, and this string agrees with the version macros
`DETALLOC_VERSION_MAJOR`, `DETALLOC_VERSION_MINOR`,
`DETALLOC_VERSION_PATCH` (0, 1, 0) declared in the header. -/
theorem det_version_string_spec :
    (∀ g, det_version_string g = "0.1.0") ∧
    (∀ g g', det_version_string g = det_version_string g') ∧
    (∀ g, det_version_string g =
       toString DETALLOC_VERSION_MAJOR ++ "." ++
       toString DETALLOC_VERSION_MINOR ++ "." ++
       toString DETALLOC_VERSION_PATCH) := by
  have hs : "0.1.0" = toString DETALLOC_VERSION_MAJOR ++ "." ++
      toString DETALLOC_VERSION_MINOR ++ "." ++
      toString DETALLOC_VERSION_PATCH := by decide
  exact ⟨fun _ => rfl, fun _ _ => rfl, fun _ => hs⟩

/-- C10: `det_default_config` ignores all ambient state and returns the
same record on every call, with `num_blocks = 0` and `thread_safe = false`;
the field names its body assigns (`block_size`, `num_blocks`, `align`,
`thread_safe`) match the declared `det_config_t` structure only at
`thread_safe`, so every other declared field is left unset by the body. -/
theorem det_default_config_spec :
    (∀ b al g g', det_default_config b al g = det_default_config b al g') ∧
    (∀ b al g, (det_default_config b al g).num_blocks = 0 ∧
               (det_default_config b al g).thread_safe = false) ∧
    ("block_size" ∉ det_config_t_field_names ∧
     "num_blocks" ∉ det_config_t_field_names ∧
     "align" ∉ det_config_t_field_names ∧
     "thread_safe" ∈ det_config_t_field_names) ∧
    det_default_config_assigned_fields.all
      (fun f => decide (f ∈ det_config_t_field_names) ==
                decide (f = "thread_safe")) = true :=
  ⟨fun _ _ _ _ => rfl, fun _ _ _ => ⟨rfl, rfl⟩,
   ⟨by decide, by decide, by decide, by decide⟩, by decide⟩

/-- Next-free link of block `k` in a freshly initialized chain. -/
theorem det_chain_getD (n k : Nat) (h : k < n) :
    (det_chain n).getD k none = if k + 1 < n then some (k + 1) else none := by
  unfold det_chain
  rw [List.getD_eq_getElem?_getD]
  simp [List.getElem?_map, List.getElem?_range, h]

/-- Intermediate state of the single-pool allocation scenario: one pool
with fixed geometry, the untouched initial chain, and head `k` after `k`
pops. -/
def det_c1_state (b0 stride al N k : Nat) (a : det_allocator_t) : Prop :=
  ∃ P : Pool, a.pools = [P] ∧ P.base = b0 ∧ P.block_size = stride ∧
    P.align = al ∧ P.capacity = N ∧ P.next = det_chain N ∧
    P.head = (if k < N then some k else none)

/-- One allocation step in the single-pool scenario pops block `k`. -/
theorem det_c1_step (b0 stride al N k sz : Nat)
    (hsz : sz ≤ stride) (hk : k < N) (a : det_allocator_t)
    (ha : det_c1_state b0 stride al N k a) :
    (det_alloc a sz).ptr = some (b0 + k * stride) ∧
    (det_alloc a sz).err = DET_OK ∧
    det_c1_state b0 stride al N (k + 1) (det_alloc a sz).state := by
  obtain ⟨P, hp, hb, hbs, hal, hcap, hnx, hhd⟩ := ha
  rw [if_pos hk] at hhd
  have hsel : det_select_pool a.pools sz = some 0 := by
    rw [hp]
    simp [det_select_pool, hbs, hsz, hhd]
  have hget : a.pools.getD 0 poolDefault = P := by rw [hp]; rfl
  have hnext : P.next.getD k none = if k + 1 < N then some (k + 1) else none := by
    rw [hnx]; exact det_chain_getD N k hk
  simp only [det_alloc, hsel, hget, hhd]
  refine ⟨by rw [hb, hbs], by trivial, ?_⟩
  refine ⟨{ P with head := P.next.getD k none
                   free_count := P.free_count - 1
                   bitmap := P.bitmap.set k true
                   stats := statsOnAlloc a.enable_stats P.stats }, ?_, ?_, ?_, ?_, ?_, ?_, ?_⟩
  · rw [hp]; rfl
  · exact hb
  · exact hbs
  · exact hal
  · exact hcap
  · exact hnx
  · exact hnext

/-- After the pool is exhausted, a further fitting request fails with the
pool-full status and a null pointer. -/
theorem det_c1_full (b0 stride al N sz : Nat) (hsz : sz ≤ stride)
    (a : det_allocator_t) (ha : det_c1_state b0 stride al N N a) :
    (det_alloc a sz).ptr = none ∧
    (det_alloc a sz).err = DET_ERR_POOL_FULL := by
  obtain ⟨P, hp, hb, hbs, hal, hcap, hnx, hhd⟩ := ha
  rw [if_neg (Nat.lt_irrefl N)] at hhd
  have hsel : det_select_pool a.pools sz = none := by
    rw [hp]
    simp [det_select_pool, hhd]
  have hfits : det_fits a.pools sz = true := by
    rw [hp]
    simp [det_fits, hbs, hsz]
  simp [det_alloc, hsel, hfits]

/-- Results of the first `k ≤ N` allocations in the single-pool scenario:
blocks 0, 1, ..., k − 1 in ascending address order, head moved to `k`. -/
theorem det_c1_seq (b0 stride al N sz : Nat)
    (hsz : sz ≤ stride) (a0 : det_allocator_t)
    (h0 : det_c1_state b0 stride al N 0 a0) (k : Nat) (hk : k ≤ N) :
    (det_alloc_seq a0 sz k).1 =
      (List.range k).map (fun i => some (b0 + i * stride)) ∧
    det_c1_state b0 stride al N k (det_alloc_seq a0 sz k).2 := by
  induction k with
  | zero => exact ⟨rfl, h0⟩
  | succ k ih =>
    obtain ⟨hl, hs⟩ := ih (Nat.le_of_succ_le hk)
    have hstep := det_c1_step b0 stride al N k sz hsz
      (Nat.lt_of_succ_le hk) _ hs
    refine ⟨?_, hstep.2.2⟩
    show (det_alloc_seq a0 sz k).1 ++ [(det_alloc (det_alloc_seq a0 sz k).2 sz).ptr] = _
    rw [hl, hstep.1, List.range_succ, List.map_append]
    rfl

/-- Pool alignments are positive. -/
theorem det_pool_align_pos (pc : det_pool_config_t) : 0 < det_pool_align pc := by
  unfold det_pool_align DET_CACHE_LINE_SIZE DET_ALIGN
  split <;> decide

/-- C1: an allocator initialized with a single pool of block size `B > 0`
and `N` blocks serves the first `N` fitting requests successfully, with
pairwise-distinct pointers, each aligned to the configured pool alignment
and lying within the pool byte range; the `N + 1`-st request returns null
with `DET_ERR_POOL_FULL`. -/
theorem det_alloc_single_pool_exhaustion
    (mem : List Nat) (bufsz B N : Nat) (ca es ev ts : Bool)
    (a0 : det_allocator_t) (sz : Nat) (hB : 0 < B) (hsz : sz ≤ B)
    (hinit : det_alloc_init (some mem) bufsz
       (some ⟨[⟨B, N, ca⟩], es, ev, ts⟩) = some a0) :
    (det_alloc_seq a0 sz N).1 =
      (List.range N).map (fun i =>
        some ((a0.pools.getD 0 poolDefault).base +
          i * (a0.pools.getD 0 poolDefault).block_size)) ∧
    (det_alloc_seq a0 sz N).1.Nodup ∧
    (∀ q ∈ (det_alloc_seq a0 sz N).1, ∃ x, q = some x ∧
       x % (a0.pools.getD 0 poolDefault).align = 0 ∧
       (a0.pools.getD 0 poolDefault).base ≤ x ∧
       x < (a0.pools.getD 0 poolDefault).base +
           (a0.pools.getD 0 poolDefault).capacity *
           (a0.pools.getD 0 poolDefault).block_size) ∧
    (det_alloc (det_alloc_seq a0 sz N).2 sz).ptr = none ∧
    (det_alloc (det_alloc_seq a0 sz N).2 sz).err = DET_ERR_POOL_FULL := by
  obtain ⟨hok, hnz, hle, ha0⟩ := det_alloc_init_inv hinit
  have hN : 0 < N := by
    simp only [det_config_ok, Bool.and_eq_true, List.all_eq_true] at hok
    have h2 := hok.2 ⟨B, N, ca⟩ (by simp)
    simp only [Bool.or_eq_true, beq_iff_eq, decide_eq_true_eq] at h2
    omega
  set pc : det_pool_config_t := ⟨B, N, ca⟩ with hpc
  set al := det_pool_align pc with haldef
  have hal : 0 < al := det_pool_align_pos pc
  set stride := DET_ALIGN_UP B al with hstridedef
  have hst : 0 < stride := Nat.lt_of_lt_of_le hB (det_le_align_up B al hal)
  have hszs : sz ≤ stride := Nat.le_trans hsz (det_le_align_up B al hal)
  have hact : det_active_pools ⟨[pc], es, ev, ts⟩ = [pc] := by
    simp [det_active_pools, List.filter, hB, List.insertionSort,
      List.orderedInsert]
  set bb : Nat := if ev then (N + 7) / 8 else 0 with hbb
  set b0 := DET_ALIGN_UP (det_header_size + bb) al with hb0
  have hpools : a0.pools = [det_mk_pool ev mem ⟨b0, stride, al, N⟩] := by
    rw [ha0]
    simp only [hact]
    rfl
  have hP : a0.pools.getD 0 poolDefault = det_mk_pool ev mem ⟨b0, stride, al, N⟩ := by
    rw [hpools]; rfl
  have h0 : det_c1_state b0 stride al N 0 a0 := by
    refine ⟨det_mk_pool ev mem ⟨b0, stride, al, N⟩, hpools, rfl, rfl, rfl, rfl, rfl, ?_⟩
    simp [det_mk_pool, hN]
  obtain ⟨hl, hs⟩ := det_c1_seq b0 stride al N sz hszs a0 h0 N (Nat.le_refl N)
  have hfull := det_c1_full b0 stride al N sz hszs _ hs
  have hbase : (a0.pools.getD 0 poolDefault).base = b0 := by rw [hP]; rfl
  have hbs : (a0.pools.getD 0 poolDefault).block_size = stride := by rw [hP]; rfl
  have halign : (a0.pools.getD 0 poolDefault).align = al := by rw [hP]; rfl
  have hcap : (a0.pools.getD 0 poolDefault).capacity = N := by rw [hP]; rfl
  refine ⟨by rw [hbase, hbs]; exact hl, ?_, ?_, hfull.1, hfull.2⟩
  · rw [hl]
    refine (List.nodup_range N).map ?_
    intro i j hij
    have := Option.some_inj.1 hij
    have := Nat.add_left_cancel this
    exact Nat.eq_of_mul_eq_mul_right hst this
  · intro q hq
    rw [hl] at hq
    simp only [List.mem_map, List.mem_range] at hq
    obtain ⟨i, hi, rfl⟩ := hq
    refine ⟨b0 + i * stride, rfl, ?_, ?_, ?_⟩
    · rw [halign]
      have hd : al ∣ b0 + i * stride :=
        Nat.dvd_add (det_align_up_dvd _ al)
          (Dvd.dvd.mul_left (det_align_up_dvd B al) i)
      exact Nat.dvd_iff_mod_eq_zero.1 hd
    · rw [hbase]; exact Nat.le_add_right _ _
    · rw [hbase, hbs, hcap]
      exact Nat.add_lt_add_left ((Nat.mul_lt_mul_right hst).2 hi) b0

/-- Default allocator value used only to extract witnesses. -/
def allocDefault : det_allocator_t :=
  { pools := [], config := ⟨[], false, false, false⟩, enable_stats := false
    enable_validation := false, total_memory := 0, used_memory := 0
    peak_memory := 0 }

/-- Concrete allocator for the C1 witness: one pool of four 64-byte
blocks. -/
def det_c1_alloc : det_allocator_t :=
  (det_alloc_init (some []) 320
    (some ⟨[⟨64, 4, false⟩], false, false, false⟩)).getD allocDefault

/-- Witness for C1 at the concrete single-pool allocator: after the four
successful allocations the fifth request fails pool-full. -/
theorem det_alloc_single_pool_exhaustion_witness :
    (det_alloc (det_alloc_seq det_c1_alloc 10 4).2 10).ptr = none ∧
    (det_alloc (det_alloc_seq det_c1_alloc 10 4).2 10).err =
      DET_ERR_POOL_FULL :=
  ⟨(det_alloc_single_pool_exhaustion [] 320 64 4 false false false false
      det_c1_alloc 10 (by decide) (by decide) (by decide)).2.2.2.1,
   (det_alloc_single_pool_exhaustion [] 320 64 4 false false false false
      det_c1_alloc 10 (by decide) (by decide) (by decide)).2.2.2.2⟩

/-- Inversion of a successful address resolution: the resolved index is in
range, the resolved Pool range contains the address, and the block index
and offset are the stated quotient and remainder. -/
theorem det_locate_some {ps : List Pool} {addr i b o : Nat}
    (h : det_locate ps addr = some (i, b, o)) :
    i < ps.length ∧
    (ps.getD i poolDefault).base ≤ addr ∧
    addr < (ps.getD i poolDefault).base +
      (ps.getD i poolDefault).capacity * (ps.getD i poolDefault).block_size ∧
    b = (addr - (ps.getD i poolDefault).base) /
        (ps.getD i poolDefault).block_size ∧
    o = (addr - (ps.getD i poolDefault).base) %
        (ps.getD i poolDefault).block_size := by
  induction ps generalizing i with
  | nil => simp [det_locate] at h
  | cons p ps ih =>
    by_cases hc : p.base ≤ addr ∧ addr < p.base + p.capacity * p.block_size
    · have hcond : (decide (p.base ≤ addr) &&
          decide (addr < p.base + p.capacity * p.block_size)) = true := by
        simp [hc.1, hc.2]
      simp only [det_locate, hcond, if_true, Option.some_inj] at h
      obtain ⟨rfl, rfl, rfl⟩ := h
      exact ⟨Nat.succ_pos _, hc.1, hc.2, rfl, rfl⟩
    · have hcond : (decide (p.base ≤ addr) &&
          decide (addr < p.base + p.capacity * p.block_size)) = false := by
        rcases Decidable.not_and_iff_or_not.1 hc with h1 | h1 <;>
          simp [h1]
      simp only [det_locate, hcond, Bool.false_eq_true, if_false,
        Option.map_eq_some'] at h
      obtain ⟨⟨i', b', o'⟩, hr, heq⟩ := h
      obtain ⟨hi, hb, ho⟩ : i' + 1 = i ∧ b' = b ∧ o' = o := by
        refine ⟨?_, ?_, ?_⟩ <;> exact congrArg (fun t => t) (by
          cases heq; rfl)
      subst hi hb ho
      have := ih hr
      simpa using this

/-- C2: LIFO reuse.  Whenever `det_free` succeeds on a pointer that
resolves to pool `i` (in particular after that pointer was allocated from
pool `i`), the next `det_alloc` whose selection picks pool `i` returns
exactly that pointer: the most recently freed block is reused first. -/
theorem det_free_then_alloc_lifo
    (a : det_allocator_t) (p i idx sz : Nat)
    (hloc : det_locate a.pools p = some (i, idx, 0))
    (hfree : (det_free a (some p)).err = DET_OK)
    (hsel : det_select_pool (det_free a (some p)).state.pools sz = some i) :
    (det_alloc (det_free a (some p)).state sz).ptr = some p ∧
    (det_alloc (det_free a (some p)).state sz).err = DET_OK := by
  obtain ⟨hilen, hble, hlt, hbdef, hodef⟩ := det_locate_some hloc
  have hbs : 0 < (a.pools.getD i poolDefault).block_size := by
    rcases Nat.eq_zero_or_pos (a.pools.getD i poolDefault).block_size with h0 | h
    · rw [h0, Nat.mul_zero] at hlt
      omega
    · exact h
  have hidx : (a.pools.getD i poolDefault).base +
      idx * (a.pools.getD i poolDefault).block_size = p := by
    have hdvd : (a.pools.getD i poolDefault).block_size ∣
        (p - (a.pools.getD i poolDefault).base) :=
      Nat.dvd_of_mod_eq_zero hodef.symm
    have hmul : idx * (a.pools.getD i poolDefault).block_size =
        p - (a.pools.getD i poolDefault).base := by
      rw [hbdef]
      exact Nat.div_mul_cancel hdvd
    omega
  have hzero : ¬((0 : Nat) ≠ 0) := by simp
  cases hval : a.enable_validation &&
      !(det_bit (a.pools.getD i poolDefault).bitmap idx) with
  | true =>
    exfalso
    have herr : (det_free a (some p)).err = DET_ERR_CORRUPTED := by
      simp only [det_free, hloc]
      rw [if_neg hzero, if_pos hval]
    rw [herr] at hfree
    exact absurd hfree (by decide)
  | false =>
    have hvneg : ¬((a.enable_validation &&
        !(det_bit (a.pools.getD i poolDefault).bitmap idx)) = true) := by
      intro hcon
      rw [hval] at hcon
      exact absurd hcon (by decide)
    simp only [det_free, hloc] at hsel ⊢
    rw [if_neg hzero, if_neg hvneg] at hsel ⊢
    have hget := det_getD_set_self a.pools i
      { a.pools.getD i poolDefault with
        bitmap := (a.pools.getD i poolDefault).bitmap.set idx false
        next := (a.pools.getD i poolDefault).next.set idx
                  (a.pools.getD i poolDefault).head
        head := some idx
        free_count := (a.pools.getD i poolDefault).free_count + 1
        stats := statsOnFree a.enable_stats
                   (a.pools.getD i poolDefault).stats } poolDefault hilen
    constructor
    · simp only [det_alloc, hsel, hget]
      exact congrArg some hidx
    · simp only [det_alloc, hsel, hget]

/-- Concrete state for the C2 witness: the C1 allocator after two
allocations (addresses 64 and 128). -/
def det_c2_alloc : det_allocator_t :=
  (det_alloc (det_alloc det_c1_alloc 10).state 10).state

/-- Witness for C2: freeing address 64 and allocating again returns
exactly address 64. -/
theorem det_free_then_alloc_lifo_witness :
    (det_alloc (det_free det_c2_alloc (some 64)).state 10).ptr = some 64 ∧
    (det_alloc (det_free det_c2_alloc (some 64)).state 10).err = DET_OK :=
  det_free_then_alloc_lifo det_c2_alloc 64 0 0 10 (by decide) (by decide)
    (by decide)

/-- An in-range `getD` read is a member of the list. -/
theorem det_getD_mem {α : Type} (l : List α) (i : Nat) (d : α)
    (h : i < l.length) : l.getD i d ∈ l := by
  induction l generalizing i with
  | nil => simp at h
  | cons a t ih =>
    cases i with
    | zero => exact List.mem_cons_self _ _
    | succ j => exact List.mem_cons_of_mem _ (ih j (by simpa using h))

/-- Indexed read of a mapped range. -/
theorem det_getD_map_range {α : Type} (m j : Nat) (f : Nat → α) (d : α) :
    ((List.range m).map f).getD j d = if j < m then f j else d := by
  by_cases h : j < m
  · rw [List.getD_eq_getElem?_getD]
    simp [List.getElem?_map, List.getElem?_range, h]
  · rw [if_neg h, List.getD_eq_default]
    simpa using Nat.le_of_not_lt h

/-- Byte read of a zero-filled block. -/
theorem det_zero_fill_getD (l : List Nat) (n j : Nat) :
    (det_zero_fill l n).getD j 0 =
      if j < l.length then (if j < n then 0 else l.getD j 0) else 0 := by
  unfold det_zero_fill
  rw [det_getD_map_range]

/-- Inversion of pool selection: the selected index is in range, the
selected Pool fits the request, and its free list is non-empty. -/
theorem det_select_pool_some {ps : List Pool} {sz i : Nat}
    (h : det_select_pool ps sz = some i) :
    i < ps.length ∧ sz ≤ (ps.getD i poolDefault).block_size ∧
    (ps.getD i poolDefault).head.isSome = true := by
  induction ps generalizing i with
  | nil => simp [det_select_pool] at h
  | cons p ps ih =>
    by_cases hc : (decide (sz ≤ p.block_size) && p.head.isSome) = true
    · simp only [det_select_pool, hc, if_true, Option.some_inj] at h
      subst h
      rw [Bool.and_eq_true, decide_eq_true_iff] at hc
      exact ⟨Nat.succ_pos _, hc.1, hc.2⟩
    · simp only [det_select_pool, hc, Bool.false_eq_true, if_false,
        Option.map_eq_some'] at h
      obtain ⟨i', hr, rfl⟩ := h
      have := ih hr
      simpa using this

/-- Region of a Pool: the data determining address resolution. -/
def det_region (p : Pool) : Nat × Nat × Nat := (p.base, p.capacity, p.block_size)

/-- Writing a cell with an `f`-equal value does not change the `f`-image
of the list. -/
theorem det_map_set_eq {α : Type} (f : Pool → α) (ps : List Pool) (i : Nat)
    (p' : Pool) (h : f (ps.getD i poolDefault) = f p') :
    (ps.set i p').map f = ps.map f := by
  induction ps generalizing i with
  | nil => rfl
  | cons p ps ih =>
    cases i with
    | zero => simp only [List.set, List.map_cons]; rw [← h]; rfl
    | succ j =>
      simp only [List.set, List.map_cons]
      rw [ih j h]

/-- Address resolution depends only on the Pool regions. -/
theorem det_locate_congr {ps qs : List Pool}
    (h : ps.map det_region = qs.map det_region) (addr : Nat) :
    det_locate ps addr = det_locate qs addr := by
  induction ps generalizing qs with
  | nil =>
    cases qs with
    | nil => rfl
    | cons q qs => simp at h
  | cons p ps ih =>
    cases qs with
    | nil => simp at h
    | cons q qs =>
      simp only [List.map_cons, List.cons.injEq] at h
      have hb : p.base = q.base := congrArg Prod.fst h.1
      have hc : p.capacity = q.capacity := congrArg (fun t => t.2.1) h.1
      have hs : p.block_size = q.block_size := congrArg (fun t => t.2.2) h.1
      simp only [det_locate, hb, hc, hs, ih h.2]

/-- Disjointness of two Pool byte ranges. -/
def det_region_disjoint (p q : Pool) : Prop :=
  p.base + p.capacity * p.block_size ≤ q.base ∨
  q.base + q.capacity * q.block_size ≤ p.base

instance (p q : Pool) : Decidable (det_region_disjoint p q) := by
  unfold det_region_disjoint
  infer_instance

/-- Pairwise disjointness of all Pool byte ranges. -/
def det_pools_disjoint : List Pool → Bool
  | [] => true
  | p :: ps =>
    ps.all (fun q => decide (det_region_disjoint p q)) && det_pools_disjoint ps

/-- With pairwise-disjoint regions, resolution of an address contained in
the region of pool `i` returns exactly pool `i` with the quotient block
index and remainder offset. -/
theorem det_locate_of_contains {ps : List Pool} (hd : det_pools_disjoint ps = true)
    {i addr : Nat} (hi : i < ps.length)
    (hc1 : (ps.getD i poolDefault).base ≤ addr)
    (hc2 : addr < (ps.getD i poolDefault).base +
      (ps.getD i poolDefault).capacity * (ps.getD i poolDefault).block_size) :
    det_locate ps addr = some (i,
      (addr - (ps.getD i poolDefault).base) / (ps.getD i poolDefault).block_size,
      (addr - (ps.getD i poolDefault).base) % (ps.getD i poolDefault).block_size) := by
  induction ps generalizing i with
  | nil => simp at hi
  | cons p ps ih =>
    rw [det_pools_disjoint, Bool.and_eq_true, List.all_eq_true] at hd
    cases i with
    | zero =>
      have hcond : (decide (p.base ≤ addr) &&
          decide (addr < p.base + p.capacity * p.block_size)) = true := by
        simp only [List.getD_cons_zero] at hc1 hc2
        simp [hc1, hc2]
      simp only [det_locate, hcond, if_true]
      rfl
    | succ j =>
      have hj : j < ps.length := by simpa using hi
      simp only [List.getD_cons_succ] at hc1 hc2 ⊢
      have hdisj : det_region_disjoint p (ps.getD j poolDefault) := by
        have := hd.1 (ps.getD j poolDefault) (det_getD_mem ps j poolDefault hj)
        exact of_decide_eq_true this
      have hnc : (decide (p.base ≤ addr) &&
          decide (addr < p.base + p.capacity * p.block_size)) = false := by
        rcases hdisj with hh | hh
        · have : ¬(addr < p.base + p.capacity * p.block_size) := by omega
          simp [this]
        · have : ¬(p.base ≤ addr) := by omega
          simp [this]
      simp only [det_locate, hnc, Bool.false_eq_true, if_false,
        ih hd.2 hj hc1 hc2, Option.map_some']

/-- C6: `det_alloc_usable_size` is a pure function of the allocator state
(it mutates nothing by construction).  For every block address of a pool
with pairwise-disjoint regions — in particular for every pointer currently
allocated from that pool — it returns the owning pool fixed block size;
for a pointer resolving to no pool, for a pointer misaligned to its pool
block boundary, and for the null pointer it returns 0. -/
theorem det_alloc_usable_size_spec (a : det_allocator_t)
    (hd : det_pools_disjoint a.pools = true) :
    (∀ i k, i < a.pools.length →
       0 < (a.pools.getD i poolDefault).block_size →
       k < (a.pools.getD i poolDefault).capacity →
       det_alloc_usable_size a (some ((a.pools.getD i poolDefault).base +
         k * (a.pools.getD i poolDefault).block_size)) =
         (a.pools.getD i poolDefault).block_size) ∧
    (∀ addr, det_locate a.pools addr = none →
       det_alloc_usable_size a (some addr) = 0) ∧
    (∀ addr i b o, det_locate a.pools addr = some (i, b, o) → o ≠ 0 →
       det_alloc_usable_size a (some addr) = 0) ∧
    det_alloc_usable_size a none = 0 := by
  refine ⟨?_, ?_, ?_, rfl⟩
  · intro i k hi hbs hk
    have hc1 : (a.pools.getD i poolDefault).base ≤
        (a.pools.getD i poolDefault).base +
        k * (a.pools.getD i poolDefault).block_size :=
      Nat.le_add_right _ _
    have hc2 : (a.pools.getD i poolDefault).base +
        k * (a.pools.getD i poolDefault).block_size <
        (a.pools.getD i poolDefault).base +
        (a.pools.getD i poolDefault).capacity *
        (a.pools.getD i poolDefault).block_size :=
      Nat.add_lt_add_left ((Nat.mul_lt_mul_right hbs).2 hk) _
    have hloc := det_locate_of_contains hd hi hc1 hc2
    rw [Nat.add_sub_cancel_left] at hloc
    have hdiv : k * (a.pools.getD i poolDefault).block_size /
        (a.pools.getD i poolDefault).block_size = k :=
      Nat.mul_div_cancel _ hbs
    have hmod : k * (a.pools.getD i poolDefault).block_size %
        (a.pools.getD i poolDefault).block_size = 0 :=
      Nat.mul_mod_left k _
    rw [hdiv, hmod] at hloc
    simp only [det_alloc_usable_size, hloc]
    simp
  · intro addr hnone
    simp [det_alloc_usable_size, hnone]
  · intro addr i b o hsome ho
    simp [det_alloc_usable_size, hsome, ho]

/-- Witness for C6: on the concrete single-pool allocator, the block
address 128 reports usable size 64, a misaligned pointer and an
out-of-range pointer report 0. -/
theorem det_alloc_usable_size_spec_witness :
    det_alloc_usable_size det_c1_alloc
      (some ((det_c1_alloc.pools.getD 0 poolDefault).base +
        1 * (det_c1_alloc.pools.getD 0 poolDefault).block_size)) =
      (det_c1_alloc.pools.getD 0 poolDefault).block_size ∧
    det_alloc_usable_size det_c1_alloc (some 1000) = 0 ∧
    det_alloc_usable_size det_c1_alloc (some 65) = 0 :=
  ⟨(det_alloc_usable_size_spec det_c1_alloc (by decide)).1 0 1 (by decide)
      (by decide) (by decide),
   (det_alloc_usable_size_spec det_c1_alloc (by decide)).2.1 1000 (by decide),
   (det_alloc_usable_size_spec det_c1_alloc (by decide)).2.2.1 65 0 0 1
      (by decide) (by decide)⟩

/-- Pool without its payload bytes: the control state compared when the
`calloc` and `alloc` effects are related. -/
def det_erase_data (p : Pool) : Pool := { p with data := [] }

/-- Structural soundness of one Pool used by the `calloc` zero-fill
argument: a reachable head index is inside the capacity, and the payload
storage has `capacity` blocks of `block_size` bytes each. -/
def det_pool_rd_ok (p : Pool) : Bool :=
  (match p.head with
   | some h => decide (h < p.capacity)
   | none => true) &&
  ((p.data.length == p.capacity) &&
   p.data.all (fun d => d.length == p.block_size))

/-- Shape of a successful allocation when selection picks pool `i` whose
head is block `h`. -/
theorem det_alloc_success_shape {a : det_allocator_t} {sz i h : Nat}
    (hsp : det_select_pool a.pools sz = some i)
    (hhd : (a.pools.getD i poolDefault).head = some h) :
    det_alloc a sz = ⟨some ((a.pools.getD i poolDefault).base +
        h * (a.pools.getD i poolDefault).block_size), DET_OK,
      { a with
        pools := a.pools.set i
          { a.pools.getD i poolDefault with
            head := (a.pools.getD i poolDefault).next.getD h none
            free_count := (a.pools.getD i poolDefault).free_count - 1
            bitmap := (a.pools.getD i poolDefault).bitmap.set h true
            stats := statsOnAlloc a.enable_stats
                       (a.pools.getD i poolDefault).stats }
        used_memory :=
          if a.enable_stats then
            a.used_memory + (a.pools.getD i poolDefault).block_size
          else a.used_memory
        peak_memory :=
          if a.enable_stats then
            max a.peak_memory
              (a.used_memory + (a.pools.getD i poolDefault).block_size)
          else a.peak_memory }⟩ := by
  simp only [det_alloc, hsp, hhd]

/-- The zero-fill helper changes only payload bytes: the data-erased pools,
the pool regions, and all allocator-level fields are untouched. -/
theorem det_memset0_shape (s : det_allocator_t) (addr n : Nat) :
    (det_memset0 s addr n).pools.map det_erase_data =
      s.pools.map det_erase_data ∧
    (det_memset0 s addr n).pools.map det_region = s.pools.map det_region ∧
    (det_memset0 s addr n).used_memory = s.used_memory ∧
    (det_memset0 s addr n).peak_memory = s.peak_memory := by
  cases hl : det_locate s.pools addr with
  | none => simp [det_memset0, hl]
  | some r =>
    obtain ⟨i, b, o⟩ := r
    simp only [det_memset0, hl]
    refine ⟨?_, ?_, by trivial, by trivial⟩
    · exact det_map_set_eq det_erase_data _ _ _ rfl
    · exact det_map_set_eq det_region _ _ _ rfl

/-- The Pool after its head block `h` is popped by an allocation. -/
def det_popped (a : det_allocator_t) (i h : Nat) : Pool :=
  { a.pools.getD i poolDefault with
    head := (a.pools.getD i poolDefault).next.getD h none
    free_count := (a.pools.getD i poolDefault).free_count - 1
    bitmap := (a.pools.getD i poolDefault).bitmap.set h true
    stats := statsOnAlloc a.enable_stats (a.pools.getD i poolDefault).stats }

/-- C5: `det_calloc` performs exactly the selection and free-list pop of
`det_alloc` (same returned pointer, same status, same control state: pools
up to payload bytes and the memory gauges), followed by a zero-fill of the
requested byte count: when it returns a pointer, each of the first `size`
bytes at that pointer reads 0 — `size` never exceeds the selected pool
block size, by selection. -/
theorem det_calloc_spec (a : det_allocator_t) (sz : Nat)
    (hd : det_pools_disjoint a.pools = true)
    (hrd : a.pools.all det_pool_rd_ok = true) :
    (det_calloc a sz).ptr = (det_alloc a sz).ptr ∧
    (det_calloc a sz).err = (det_alloc a sz).err ∧
    (det_calloc a sz).state.pools.map det_erase_data =
      (det_alloc a sz).state.pools.map det_erase_data ∧
    (det_calloc a sz).state.used_memory = (det_alloc a sz).state.used_memory ∧
    (det_calloc a sz).state.peak_memory = (det_alloc a sz).state.peak_memory ∧
    (∀ q, (det_calloc a sz).ptr = some q → ∀ j, j < sz →
       det_read_byte (det_calloc a sz).state (q + j) = 0) := by
  cases hsp : det_select_pool a.pools sz with
  | none =>
    have hptr : (det_alloc a sz).ptr = none := by
      simp only [det_alloc, hsp]
      split <;> rfl
    have hcal : det_calloc a sz = det_alloc a sz := by
      simp only [det_calloc, hptr]
    rw [hcal]
    refine ⟨rfl, rfl, rfl, rfl, rfl, ?_⟩
    intro q hq
    rw [hptr] at hq
    exact absurd hq (by simp)
  | some i =>
    obtain ⟨hilen, hszle, hhds⟩ := det_select_pool_some hsp
    obtain ⟨h, hhd⟩ := Option.isSome_iff_exists.1 hhds
    have hshape : det_alloc a sz = ⟨some ((a.pools.getD i poolDefault).base +
        h * (a.pools.getD i poolDefault).block_size), DET_OK,
      { a with
        pools := a.pools.set i (det_popped a i h)
        used_memory :=
          if a.enable_stats then
            a.used_memory + (a.pools.getD i poolDefault).block_size
          else a.used_memory
        peak_memory :=
          if a.enable_stats then
            max a.peak_memory
              (a.used_memory + (a.pools.getD i poolDefault).block_size)
          else a.peak_memory }⟩ := by
      simp only [det_alloc, hsp, hhd]
      rfl
    have hcal : det_calloc a sz = ⟨(det_alloc a sz).ptr, (det_alloc a sz).err,
        det_memset0 (det_alloc a sz).state
          ((a.pools.getD i poolDefault).base +
            h * (a.pools.getD i poolDefault).block_size) sz⟩ := by
      simp only [det_calloc, hshape]
    have hms := det_memset0_shape (det_alloc a sz).state
      ((a.pools.getD i poolDefault).base +
        h * (a.pools.getD i poolDefault).block_size) sz
    refine ⟨by rw [hcal], by rw [hcal], ?_, ?_, ?_, ?_⟩
    · rw [hcal]
      exact hms.1
    · rw [hcal]
      exact hms.2.2.1
    · rw [hcal]
      exact hms.2.2.2
    · intro q hq j hj
      rw [hcal] at hq
      have hq' : (det_alloc a sz).ptr = some q := hq
      rw [hshape] at hq'
      have hqaddr : q = (a.pools.getD i poolDefault).base +
          h * (a.pools.getD i poolDefault).block_size :=
        (Option.some_inj.1 hq').symm
      subst hqaddr
      rw [hcal]
      -- abbreviations
      have hszpos : 0 < sz := Nat.pos_of_ne_zero (by omega)
      have hbs : 0 < (a.pools.getD i poolDefault).block_size :=
        Nat.lt_of_lt_of_le hszpos hszle
      have hjbs : j < (a.pools.getD i poolDefault).block_size :=
        Nat.lt_of_lt_of_le hj hszle
      -- structural facts of the selected pool
      have hok := List.all_eq_true.1 hrd _ (det_getD_mem a.pools i poolDefault hilen)
      rw [det_pool_rd_ok, Bool.and_eq_true, Bool.and_eq_true] at hok
      have hcap : h < (a.pools.getD i poolDefault).capacity := by
        have hh := hok.1
        rw [hhd] at hh
        exact of_decide_eq_true hh
      have hdlen : (a.pools.getD i poolDefault).data.length =
          (a.pools.getD i poolDefault).capacity := by
        simpa using hok.2.1
      have hblen : ((a.pools.getD i poolDefault).data.getD h []).length =
          (a.pools.getD i poolDefault).block_size := by
        have hmem := det_getD_mem (a.pools.getD i poolDefault).data h []
          (hdlen ▸ hcap)
        simpa using List.all_eq_true.1 hok.2.2 _ hmem
      -- region bookkeeping
      have hregA' : (det_alloc a sz).state.pools.map det_region =
          a.pools.map det_region := by
        rw [hshape]
        exact det_map_set_eq det_region a.pools i (det_popped a i h) rfl
      -- the written address resolves to pool i, block h, offset j
      have hcont1 : (a.pools.getD i poolDefault).base ≤
          (a.pools.getD i poolDefault).base +
          h * (a.pools.getD i poolDefault).block_size + j :=
        Nat.le_add_right _ _ |>.trans (Nat.le_add_right _ _)
      have hmul1 : h * (a.pools.getD i poolDefault).block_size + j <
          (h + 1) * (a.pools.getD i poolDefault).block_size := by
        rw [Nat.succ_mul]
        exact Nat.add_lt_add_left hjbs _
      have hmul2 : (h + 1) * (a.pools.getD i poolDefault).block_size ≤
          (a.pools.getD i poolDefault).capacity *
          (a.pools.getD i poolDefault).block_size :=
        Nat.mul_le_mul_right _ hcap
      have hcont2 : (a.pools.getD i poolDefault).base +
          h * (a.pools.getD i poolDefault).block_size + j <
          (a.pools.getD i poolDefault).base +
          (a.pools.getD i poolDefault).capacity *
          (a.pools.getD i poolDefault).block_size := by omega
      have hloc0 := det_locate_of_contains hd hilen hcont1 hcont2
      have hsub : (a.pools.getD i poolDefault).base +
          h * (a.pools.getD i poolDefault).block_size + j -
          (a.pools.getD i poolDefault).base =
          h * (a.pools.getD i poolDefault).block_size + j := by omega
      have hdivj : (h * (a.pools.getD i poolDefault).block_size + j) /
          (a.pools.getD i poolDefault).block_size = h := by
        rw [Nat.add_comm, Nat.mul_comm, Nat.add_mul_div_left _ _ hbs,
          Nat.div_eq_of_lt hjbs]
        exact Nat.zero_add h
      have hmodj : (h * (a.pools.getD i poolDefault).block_size + j) %
          (a.pools.getD i poolDefault).block_size = j := by
        rw [Nat.add_comm, Nat.mul_comm, Nat.add_mul_mod_self_left]
        exact Nat.mod_eq_of_lt hjbs
      rw [hsub, hdivj, hmodj] at hloc0
      have hlocA'' : det_locate (det_memset0 (det_alloc a sz).state
          ((a.pools.getD i poolDefault).base +
            h * (a.pools.getD i poolDefault).block_size) sz).pools
          ((a.pools.getD i poolDefault).base +
            h * (a.pools.getD i poolDefault).block_size + j) =
          some (i, h, j) := by
        rw [det_locate_congr (hms.2.1.trans hregA'), hloc0]
      -- the memset wrote the zero fill into block h of pool i
      have hlocA' : det_locate (det_alloc a sz).state.pools
          ((a.pools.getD i poolDefault).base +
            h * (a.pools.getD i poolDefault).block_size) = some (i, h, 0) := by
        rw [det_locate_congr hregA']
        have hc1 : (a.pools.getD i poolDefault).base ≤
            (a.pools.getD i poolDefault).base +
            h * (a.pools.getD i poolDefault).block_size := Nat.le_add_right _ _
        have hc2 : (a.pools.getD i poolDefault).base +
            h * (a.pools.getD i poolDefault).block_size <
            (a.pools.getD i poolDefault).base +
            (a.pools.getD i poolDefault).capacity *
            (a.pools.getD i poolDefault).block_size := by omega
        have := det_locate_of_contains hd hilen hc1 hc2
        rw [Nat.add_sub_cancel_left, Nat.mul_div_cancel _ hbs,
          Nat.mul_mod_left] at this
        exact this
      have hgetA' : (det_alloc a sz).state.pools.getD i poolDefault =
          det_popped a i h := by
        rw [hshape]
        exact det_getD_set_self a.pools i (det_popped a i h) poolDefault hilen
      have hmsE : det_memset0 (det_alloc a sz).state
          ((a.pools.getD i poolDefault).base +
            h * (a.pools.getD i poolDefault).block_size) sz =
          { (det_alloc a sz).state with
            pools := (det_alloc a sz).state.pools.set i
              { det_popped a i h with
                data := (det_popped a i h).data.set h
                  (det_zero_fill ((det_popped a i h).data.getD h []) sz) } } := by
        simp only [det_memset0, hlocA', hgetA']
      have hilen' : i < (det_alloc a sz).state.pools.length := by
        rw [hshape]
        simpa using hilen
      have hgetA'' : (det_memset0 (det_alloc a sz).state
          ((a.pools.getD i poolDefault).base +
            h * (a.pools.getD i poolDefault).block_size) sz).pools.getD i
            poolDefault =
          { det_popped a i h with
            data := (det_popped a i h).data.set h
              (det_zero_fill ((det_popped a i h).data.getD h []) sz) } := by
        rw [hmsE]
        exact det_getD_set_self _ i _ poolDefault hilen'
      simp only [det_read_byte, hlocA'', hgetA'']
      have hdata : (det_popped a i h).data = (a.pools.getD i poolDefault).data := rfl
      rw [hdata]
      rw [det_getD_set_self _ h _ [] (hdlen ▸ hcap)]
      rw [det_zero_fill_getD]
      rw [hblen]
      rw [if_pos hjbs, if_pos hj]

/-- Witness for C5 on the concrete single-pool allocator: `det_calloc`
returns the same pointer as `det_alloc` and byte 3 of the returned block
reads 0. -/
theorem det_calloc_spec_witness :
    (det_calloc det_c1_alloc 10).ptr = (det_alloc det_c1_alloc 10).ptr ∧
    det_read_byte (det_calloc det_c1_alloc 10).state (64 + 3) = 0 :=
  ⟨(det_calloc_spec det_c1_alloc 10 (by decide) (by decide)).1,
   (det_calloc_spec det_c1_alloc 10 (by decide) (by decide)).2.2.2.2.2 64
     (by decide) 3 (by decide)⟩

/-- Per-pool peak-usage list of an allocator state. -/
def det_peaks (a : det_allocator_t) : List Nat :=
  a.pools.map (fun p => p.stats.peak_usage)

/-- Allocation statistics never lower the peak. -/
theorem det_statsOnAlloc_peak (e : Bool) (st : det_pool_stats_t) :
    st.peak_usage ≤ (statsOnAlloc e st).peak_usage := by
  unfold statsOnAlloc
  split
  · exact Nat.le_max_left _ _
  · exact Nat.le_refl _

/-- Free statistics keep the peak. -/
theorem det_statsOnFree_peak (e : Bool) (st : det_pool_stats_t) :
    (statsOnFree e st).peak_usage = st.peak_usage := by
  unfold statsOnFree
  split <;> rfl

/-- Pointwise order is reflexive on lists. -/
theorem det_forall2_le_refl (l : List Nat) : List.Forall₂ (· ≤ ·) l l :=
  List.forall₂_same.2 (fun x _ => Nat.le_refl x)

/-- Pointwise order is transitive on lists. -/
theorem det_forall2_le_trans {l₁ l₂ l₃ : List Nat}
    (h1 : List.Forall₂ (· ≤ ·) l₁ l₂) (h2 : List.Forall₂ (· ≤ ·) l₂ l₃) :
    List.Forall₂ (· ≤ ·) l₁ l₃ := by
  induction h1 generalizing l₃ with
  | nil =>
    cases h2
    exact List.Forall₂.nil
  | cons hab h ih =>
    cases h2 with
    | cons hbc h2 => exact List.Forall₂.cons (Nat.le_trans hab hbc) (ih h2)

/-- Writing one pool whose peak did not shrink keeps the peak list
pointwise non-decreasing. -/
theorem det_peaks_set (ps : List Pool) (i : Nat) (p' : Pool)
    (h : (ps.getD i poolDefault).stats.peak_usage ≤ p'.stats.peak_usage) :
    List.Forall₂ (· ≤ ·) (ps.map (fun p => p.stats.peak_usage))
      ((ps.set i p').map (fun p => p.stats.peak_usage)) := by
  induction ps generalizing i with
  | nil => exact List.Forall₂.nil
  | cons p ps ih =>
    cases i with
    | zero => exact List.Forall₂.cons h (det_forall2_le_refl _)
    | succ j => exact List.Forall₂.cons (Nat.le_refl _) (ih j h)

/-- The failed-allocation bump changes no peak. -/
theorem det_bump_peaks (a : det_allocator_t) (sz : Nat) :
    (det_bump_failed a sz).pools.map (fun p => p.stats.peak_usage) =
      a.pools.map (fun p => p.stats.peak_usage) ∧
    (det_bump_failed a sz).peak_memory = a.peak_memory := by
  unfold det_bump_failed
  split
  · cases hf : a.pools.findIdx? (fun p => decide (sz ≤ p.block_size)) with
    | some i =>
      simp only [hf]
      refine ⟨det_map_set_eq (fun p => p.stats.peak_usage) _ _ _ rfl, by trivial⟩
    | none => exact ⟨by trivial, by trivial⟩
  · exact ⟨by trivial, by trivial⟩

/-- The zero-fill helper changes no peak. -/
theorem det_memset0_peaks (s : det_allocator_t) (addr n : Nat) :
    (det_memset0 s addr n).pools.map (fun p => p.stats.peak_usage) =
      s.pools.map (fun p => p.stats.peak_usage) ∧
    (det_memset0 s addr n).peak_memory = s.peak_memory := by
  cases hl : det_locate s.pools addr with
  | none => simp only [det_memset0, hl]; exact ⟨by trivial, by trivial⟩
  | some r =>
    obtain ⟨i, b, o⟩ := r
    simp only [det_memset0, hl]
    refine ⟨det_map_set_eq (fun p => p.stats.peak_usage) _ _ _ rfl, by trivial⟩

/-- An allocation never lowers any peak. -/
theorem det_alloc_peaks (a : det_allocator_t) (sz : Nat) :
    List.Forall₂ (· ≤ ·) (det_peaks a) (det_peaks (det_alloc a sz).state) ∧
    a.peak_memory ≤ (det_alloc a sz).state.peak_memory := by
  cases hsp : det_select_pool a.pools sz with
  | some i =>
    obtain ⟨hilen, hszle, hhds⟩ := det_select_pool_some hsp
    obtain ⟨h, hhd⟩ := Option.isSome_iff_exists.1 hhds
    rw [det_alloc_success_shape hsp hhd]
    constructor
    · exact det_peaks_set _ i _ (det_statsOnAlloc_peak _ _)
    · dsimp only
      split
      · exact Nat.le_max_left _ _
      · exact Nat.le_refl _
  | none =>
    have hsh : det_alloc a sz = if det_fits a.pools sz then
        ⟨none, DET_ERR_POOL_FULL, det_bump_failed a sz⟩
      else ⟨none, DET_ERR_INVALID_PARAM, a⟩ := by
      simp only [det_alloc, hsp]
    rw [hsh]
    split
    · refine ⟨?_, ?_⟩
      · show List.Forall₂ (· ≤ ·) (det_peaks a)
          ((det_bump_failed a sz).pools.map (fun p => p.stats.peak_usage))
        rw [(det_bump_peaks a sz).1]
        exact det_forall2_le_refl _
      · rw [(det_bump_peaks a sz).2]
    · exact ⟨det_forall2_le_refl _, Nat.le_refl _⟩

/-- A free never lowers any peak. -/
theorem det_free_peaks (a : det_allocator_t) (ptr : Option Nat) :
    (det_free a ptr).state.pools.map (fun p => p.stats.peak_usage) =
      a.pools.map (fun p => p.stats.peak_usage) ∧
    (det_free a ptr).state.peak_memory = a.peak_memory := by
  cases ptr with
  | none => exact ⟨by trivial, by trivial⟩
  | some addr =>
    cases hl : det_locate a.pools addr with
    | none => simp only [det_free, hl]; exact ⟨by trivial, by trivial⟩
    | some r =>
      obtain ⟨i, idx, off⟩ := r
      simp only [det_free, hl]
      split
      · exact ⟨by trivial, by trivial⟩
      · split
        · exact ⟨by trivial, by trivial⟩
        · refine ⟨det_map_set_eq (fun p => p.stats.peak_usage) _ _ _ ?_, by trivial⟩
          exact (det_statsOnFree_peak _ _).symm
  
/-- A statistics reset keeps every peak. -/
theorem det_reset_peaks (a : det_allocator_t) :
    (det_reset_stats a).pools.map (fun p => p.stats.peak_usage) =
      a.pools.map (fun p => p.stats.peak_usage) := by
  unfold det_reset_stats
  dsimp only
  rw [List.map_map]
  rfl

/-- A single operation never lowers any peak. -/
theorem det_step_peaks (a : det_allocator_t) (op : det_op) :
    List.Forall₂ (· ≤ ·) (det_peaks a) (det_peaks (det_step a op)) ∧
    a.peak_memory ≤ (det_step a op).peak_memory := by
  cases op with
  | op_alloc sz => exact det_alloc_peaks a sz
  | op_calloc sz =>
    have h1 := det_alloc_peaks a sz
    show List.Forall₂ (· ≤ ·) (det_peaks a) (det_peaks (det_calloc a sz).state) ∧
      a.peak_memory ≤ (det_calloc a sz).state.peak_memory
    cases hp : (det_alloc a sz).ptr with
    | none =>
      have : det_calloc a sz = det_alloc a sz := by
        simp only [det_calloc, hp]
      rw [this]
      exact h1
    | some addr =>
      have hc : (det_calloc a sz).state =
          det_memset0 (det_alloc a sz).state addr sz := by
        simp only [det_calloc, hp]
      rw [hc]
      have hm := det_memset0_peaks (det_alloc a sz).state addr sz
      constructor
      · show List.Forall₂ (· ≤ ·) (det_peaks a)
          ((det_memset0 (det_alloc a sz).state addr sz).pools.map
            (fun p => p.stats.peak_usage))
        rw [hm.1]
        exact h1.1
      · rw [hm.2]
        exact h1.2
  | op_free p =>
    have h := det_free_peaks a p
    constructor
    · show List.Forall₂ (· ≤ ·) (det_peaks a)
        ((det_free a p).state.pools.map (fun q => q.stats.peak_usage))
      rw [h.1]
      exact det_forall2_le_refl _
    · rw [show (det_step a (.op_free p)).peak_memory =
          (det_free a p).state.peak_memory from rfl, h.2]
  | op_reset =>
    constructor
    · show List.Forall₂ (· ≤ ·) (det_peaks a)
        ((det_reset_stats a).pools.map (fun q => q.stats.peak_usage))
      rw [det_reset_peaks]
      exact det_forall2_le_refl _
    · exact Nat.le_refl _

/-- No operation sequence ever lowers any peak. -/
theorem det_run_peaks (a : det_allocator_t) (ops : List det_op) :
    List.Forall₂ (· ≤ ·) (det_peaks a) (det_peaks (det_run a ops)) ∧
    a.peak_memory ≤ (det_run a ops).peak_memory := by
  induction ops generalizing a with
  | nil => exact ⟨det_forall2_le_refl _, Nat.le_refl _⟩
  | cons op ops ih =>
    have h1 := det_step_peaks a op
    have h2 := ih (det_step a op)
    exact ⟨det_forall2_le_trans h1.1 h2.1, Nat.le_trans h1.2 h2.2⟩

/-- Reachability of the intrusive free list: `det_free_chain next hd L`
states that following the next-free links from head `hd` visits exactly
the blocks `L` and ends at the sentinel. -/
inductive det_free_chain (next : List (Option Nat)) : Option Nat → List Nat → Prop
  | nil : det_free_chain next none []
  | cons (h : Nat) (t : List Nat) :
      det_free_chain next (next.getD h none) t →
      det_free_chain next (some h) (h :: t)

/-- A chain is untouched by a link write outside its nodes. -/
theorem det_free_chain_set {next : List (Option Nat)} {o : Option Nat}
    {L : List Nat} (hc : det_free_chain next o L) (j : Nat) (v : Option Nat)
    (hj : j ∉ L) : det_free_chain (next.set j v) o L := by
  induction hc with
  | nil => exact det_free_chain.nil
  | cons h t hrec ih =>
    have hne : j ≠ h := fun hh => hj (hh ▸ List.mem_cons_self _ _)
    have ht : j ∉ t := fun hh => hj (List.mem_cons_of_mem _ hh)
    have := ih ht
    rw [← det_getD_set_ne next j h v none hne] at this
    exact det_free_chain.cons h t this

/-- Inversion of a chain with a non-sentinel head. -/
theorem det_free_chain_cons_inv {next : List (Option Nat)} {h : Nat}
    {L : List Nat} (hc : det_free_chain next (some h) L) :
    ∃ t, L = h :: t ∧ det_free_chain next (next.getD h none) t := by
  cases hc with
  | cons h t hrec => exact ⟨t, rfl, hrec⟩

/-- A duplicate-free list of naturals below `n` has at most `n` members. -/
theorem det_nodup_bound {L : List Nat} {n : Nat} (hnd : L.Nodup)
    (hb : ∀ x ∈ L, x < n) : L.length ≤ n := by
  have hsub : L ⊆ List.range n := fun x hx => List.mem_range.2 (hb x hx)
  have := List.subperm_of_subset hnd hsub
  simpa using this.length_le

/-- Invariant of one Pool under enabled statistics and validation: the
free list is an acyclic chain of exactly `free_count` distinct in-range
blocks, the occupancy bitmap is clear exactly on the chain, and the
current-usage gauge equals the occupied block count. -/
def det_pool_inv (p : Pool) : Prop :=
  ∃ L : List Nat, det_free_chain p.next p.head L ∧
    L.length = p.free_count ∧ L.Nodup ∧ (∀ x ∈ L, x < p.capacity) ∧
    (∀ x, x < p.capacity → (x ∈ L ↔ det_bit p.bitmap x = false)) ∧
    p.next.length = p.capacity ∧ p.bitmap.length = p.capacity ∧
    p.stats.current_usage = p.capacity - p.free_count

/-- Invariant of the whole allocator under enabled statistics and
validation. -/
def det_inv (a : det_allocator_t) : Prop :=
  (∀ p ∈ a.pools, det_pool_inv p) ∧
  a.enable_stats = true ∧ a.enable_validation = true

/-- A freshly initialized chain reaches exactly the blocks from `j`
upward. -/
theorem det_chain_reaches (n : Nat) : ∀ k j, n - j = k → j ≤ n →
    det_free_chain (det_chain n) (if j < n then some j else none)
      (List.range' j (n - j)) := by
  intro k
  induction k with
  | zero =>
    intro j hk hj
    have hnj : ¬(j < n) := by omega
    rw [if_neg hnj, hk]
    exact det_free_chain.nil
  | succ k ih =>
    intro j hk hj
    have hjn : j < n := by omega
    rw [if_pos hjn, hk, List.range'_succ]
    refine det_free_chain.cons j _ ?_
    have hnext : (det_chain n).getD j none =
        if j + 1 < n then some (j + 1) else none := det_chain_getD n j hjn
    rw [hnext]
    have := ih (j + 1) (by omega) (by omega)
    have hlen : n - (j + 1) = k := by omega
    rw [hlen] at this
    exact this

/-- Occupancy bit of a fresh all-clear bitmap. -/
theorem det_bit_replicate (n x : Nat) (hx : x < n) :
    det_bit (List.replicate n false) x = false := by
  unfold det_bit
  rw [List.getD_eq_getElem?_getD, List.getElem?_replicate, if_pos hx]
  rfl

/-- Every Pool built by initialization satisfies the Pool invariant. -/
theorem det_mk_pool_inv (validation : Bool) (hv : validation = true)
    (mem : List Nat) (d : det_pool_desc) :
    det_pool_inv (det_mk_pool validation mem d) := by
  refine ⟨List.range d.nblocks, ?_, ?_, List.nodup_range _, ?_, ?_, ?_, ?_, ?_⟩
  · have := det_chain_reaches d.nblocks d.nblocks 0 (by omega) (by omega)
    rw [List.range_eq_range']
    have hh : (det_mk_pool validation mem d).head =
        if 0 < d.nblocks then some 0 else none := rfl
    rw [hh]
    simpa using this
  · simp [det_mk_pool, List.length_range]
  · intro x hx
    simpa using List.mem_range.1 hx
  · intro x hx
    constructor
    · intro _
      show det_bit (det_mk_pool validation mem d).bitmap x = false
      have : (det_mk_pool validation mem d).bitmap =
          List.replicate d.nblocks false := by
        simp [det_mk_pool, hv]
      rw [this]
      exact det_bit_replicate _ _ hx
    · intro _
      exact List.mem_range.2 hx
  · simp [det_mk_pool, det_chain]
  · simp [det_mk_pool, hv]
  · simp [det_mk_pool]

/-- Initialization with statistics and validation enabled establishes the
allocator invariant. -/
theorem det_init_inv {mem : List Nat} {size : Nat} {cfg : det_config_t}
    {a : det_allocator_t}
    (h : det_alloc_init (some mem) size (some cfg) = some a)
    (hs : cfg.enable_stats = true) (hv : cfg.enable_validation = true) :
    det_inv a := by
  obtain ⟨-, -, -, ha⟩ := det_alloc_init_inv h
  subst ha
  refine ⟨?_, hs, hv⟩
  intro p hp
  rw [List.mem_map] at hp
  obtain ⟨d, -, rfl⟩ := hp
  exact det_mk_pool_inv _ hv mem d

/-- Bumping the failed counter keeps the Pool invariant. -/
theorem det_pool_inv_stats_failed (p : Pool) (hinv : det_pool_inv p) :
    det_pool_inv { p with stats :=
      { p.stats with failed_allocs := p.stats.failed_allocs + 1 } } := by
  obtain ⟨L, h1, h2, h3, h4, h5, h6, h7, h8⟩ := hinv
  exact ⟨L, h1, h2, h3, h4, h5, h6, h7, h8⟩

/-- Replacing payload bytes keeps the Pool invariant. -/
theorem det_pool_inv_data (p : Pool) (d : List (List Nat))
    (hinv : det_pool_inv p) : det_pool_inv { p with data := d } := by
  obtain ⟨L, h1, h2, h3, h4, h5, h6, h7, h8⟩ := hinv
  exact ⟨L, h1, h2, h3, h4, h5, h6, h7, h8⟩

/-- The statistics reset keeps the Pool invariant: the current-usage gauge
and the free list are untouched. -/
theorem det_pool_inv_reset (p : Pool) (hinv : det_pool_inv p) :
    det_pool_inv { p with stats :=
      { total_allocs := 0, total_frees := 0
        current_usage := p.stats.current_usage
        peak_usage := p.stats.peak_usage, failed_allocs := 0 } } := by
  obtain ⟨L, h1, h2, h3, h4, h5, h6, h7, h8⟩ := hinv
  exact ⟨L, h1, h2, h3, h4, h5, h6, h7, h8⟩

/-- Popping the head block of a Pool keeps the Pool invariant. -/
theorem det_pool_inv_popped {a : det_allocator_t} {i h : Nat}
    (hinv : det_pool_inv (a.pools.getD i poolDefault))
    (hhd : (a.pools.getD i poolDefault).head = some h)
    (hstats : a.enable_stats = true) :
    det_pool_inv (det_popped a i h) := by
  obtain ⟨L, hc, hlen, hnd, hbnd, hbit, hnl, hbl, hcur⟩ := hinv
  rw [hhd] at hc
  obtain ⟨t, rfl, ht⟩ := det_free_chain_cons_inv hc
  have hhc : h < (a.pools.getD i poolDefault).capacity :=
    hbnd h (List.mem_cons_self _ _)
  have hhnt : h ∉ t := (List.nodup_cons.1 hnd).1
  have hndt : t.Nodup := (List.nodup_cons.1 hnd).2
  have hfle : (h :: t).length ≤ (a.pools.getD i poolDefault).capacity :=
    det_nodup_bound hnd hbnd
  rw [List.length_cons] at hlen hfle
  refine ⟨t, ht, ?_, hndt, ?_, ?_, hnl, ?_, ?_⟩
  · show t.length = (a.pools.getD i poolDefault).free_count - 1
    omega
  · intro x hx
    exact hbnd x (List.mem_cons_of_mem _ hx)
  · intro x hxcap
    constructor
    · intro hxt
      have hne : x ≠ h := fun he => hhnt (he ▸ hxt)
      show det_bit ((a.pools.getD i poolDefault).bitmap.set h true) x = false
      unfold det_bit
      rw [det_getD_set_ne _ h x _ _ (fun he => hne he.symm)]
      exact (hbit x hxcap).1 (List.mem_cons_of_mem _ hxt)
    · intro hb
      by_cases hxh : x = h
      · subst hxh
        exfalso
        have hb' : det_bit ((a.pools.getD i poolDefault).bitmap.set x true) x
            = false := hb
        unfold det_bit at hb'
        rw [det_getD_set_self _ x _ _ (by rw [hbl]; exact hhc)] at hb'
        exact Bool.noConfusion hb'
      · have hbx : det_bit (a.pools.getD i poolDefault).bitmap x = false := by
          have hb' : det_bit ((a.pools.getD i poolDefault).bitmap.set h true) x
              = false := hb
          unfold det_bit at hb' ⊢
          rw [det_getD_set_ne _ h x _ _ (fun he => hxh he.symm)] at hb'
          exact hb'
        have hmem := (hbit x hxcap).2 hbx
        cases List.mem_cons.1 hmem with
        | inl he => exact absurd he hxh
        | inr hm => exact hm
  · show ((a.pools.getD i poolDefault).bitmap.set h true).length =
      (a.pools.getD i poolDefault).capacity
    rw [List.length_set]
    exact hbl
  · show (statsOnAlloc a.enable_stats
      (a.pools.getD i poolDefault).stats).current_usage =
      (a.pools.getD i poolDefault).capacity -
      ((a.pools.getD i poolDefault).free_count - 1)
    rw [hstats]
    unfold statsOnAlloc
    rw [if_pos rfl]
    show (a.pools.getD i poolDefault).stats.current_usage + 1 = _
    omega

/-- Splicing a block back onto the free list keeps the Pool invariant,
provided the occupancy bit of the block was set. -/
theorem det_pool_inv_spliced (p : Pool) (idx : Nat) (e : Bool)
    (he : e = true) (hinv : det_pool_inv p) (hidx : idx < p.capacity)
    (hbtrue : det_bit p.bitmap idx = true) :
    det_pool_inv { p with bitmap := p.bitmap.set idx false
                          next := p.next.set idx p.head
                          head := some idx
                          free_count := p.free_count + 1
                          stats := statsOnFree e p.stats } := by
  obtain ⟨L, hc, hlen, hnd, hbnd, hbm, hnl, hbl, hcur⟩ := hinv
  have hnotin : idx ∉ L := by
    intro hmem
    have := (hbm idx hidx).1 hmem
    rw [hbtrue] at this
    exact Bool.noConfusion this
  have hchain' : det_free_chain (p.next.set idx p.head) p.head L :=
    det_free_chain_set hc idx p.head hnotin
  have hgetidx : (p.next.set idx p.head).getD idx none = p.head :=
    det_getD_set_self p.next idx p.head none (by rw [hnl]; exact hidx)
  have hle : (idx :: L).length ≤ p.capacity := by
    refine det_nodup_bound (List.nodup_cons.2 ⟨hnotin, hnd⟩) ?_
    intro x hx
    cases List.mem_cons.1 hx with
    | inl he' => exact he' ▸ hidx
    | inr hm => exact hbnd x hm
  rw [List.length_cons, hlen] at hle
  refine ⟨idx :: L, ?_, ?_, List.nodup_cons.2 ⟨hnotin, hnd⟩, ?_, ?_, ?_, ?_, ?_⟩
  · refine det_free_chain.cons idx L ?_
    rw [hgetidx]
    exact hchain'
  · show (idx :: L).length = p.free_count + 1
    rw [List.length_cons, hlen]
  · intro x hx
    cases List.mem_cons.1 hx with
    | inl he' => exact he' ▸ hidx
    | inr hm => exact hbnd x hm
  · intro x hxcap
    constructor
    · intro hx
      show det_bit (p.bitmap.set idx false) x = false
      cases List.mem_cons.1 hx with
      | inl he' =>
        subst he'
        unfold det_bit
        rw [det_getD_set_self _ x _ _ (by rw [hbl]; exact hidx)]
      | inr hm =>
        have hne : x ≠ idx := fun heq => hnotin (heq ▸ hm)
        unfold det_bit
        rw [det_getD_set_ne _ idx x _ _ (fun heq => hne heq.symm)]
        exact (hbm x hxcap).1 hm
    · intro hb
      by_cases hxi : x = idx
      · exact hxi ▸ List.mem_cons_self _ _
      · have hbx : det_bit p.bitmap x = false := by
          have hb' : det_bit (p.bitmap.set idx false) x = false := hb
          unfold det_bit at hb' ⊢
          rw [det_getD_set_ne _ idx x _ _ (fun heq => hxi heq.symm)] at hb'
          exact hb'
        exact List.mem_cons_of_mem _ ((hbm x hxcap).2 hbx)
  · show (p.next.set idx p.head).length = p.capacity
    rw [List.length_set]
    exact hnl
  · show (p.bitmap.set idx false).length = p.capacity
    rw [List.length_set]
    exact hbl
  · show (statsOnFree e p.stats).current_usage =
      p.capacity - (p.free_count + 1)
    rw [he]
    unfold statsOnFree
    rw [if_pos rfl]
    show p.stats.current_usage - 1 = _
    omega

/-- An allocation preserves the allocator invariant. -/
theorem det_alloc_inv (a : det_allocator_t) (sz : Nat) (hinv : det_inv a) :
    det_inv (det_alloc a sz).state := by
  obtain ⟨hpools, hs, hv⟩ := hinv
  cases hsp : det_select_pool a.pools sz with
  | some i =>
    obtain ⟨hilen, -, hhds⟩ := det_select_pool_some hsp
    obtain ⟨h, hhd⟩ := Option.isSome_iff_exists.1 hhds
    rw [det_alloc_success_shape hsp hhd]
    refine ⟨?_, hs, hv⟩
    intro q hq
    rcases det_mem_set _ _ _ _ hq with rfl | hq
    · exact det_pool_inv_popped
        (hpools _ (det_getD_mem a.pools i poolDefault hilen)) hhd hs
    · exact hpools q hq
  | none =>
    have hsh : det_alloc a sz = if det_fits a.pools sz then
        ⟨none, DET_ERR_POOL_FULL, det_bump_failed a sz⟩
      else ⟨none, DET_ERR_INVALID_PARAM, a⟩ := by
      simp only [det_alloc, hsp]
    rw [hsh]
    split
    · show det_inv (det_bump_failed a sz)
      unfold det_bump_failed
      rw [hs, if_pos rfl]
      split
      · rename_i i hf
        refine ⟨?_, by trivial, by trivial⟩
        intro q hq
        rcases det_mem_set _ _ _ _ hq with rfl | hq
        · by_cases hil : i < a.pools.length
          · exact det_pool_inv_stats_failed _
              (hpools _ (det_getD_mem a.pools i poolDefault hil))
          · have hdef : a.pools.getD i poolDefault = poolDefault :=
              List.getD_eq_default _ _ (Nat.le_of_not_lt hil)
            rw [hdef]
            refine det_pool_inv_stats_failed poolDefault
              ⟨[], ?_, rfl, ?_, ?_, ?_, rfl, rfl, rfl⟩
            · exact det_free_chain.nil
            · exact List.nodup_nil
            · intro x hx
              exact absurd hx (List.not_mem_nil x)
            · intro x hx
              rw [show poolDefault.capacity = 0 from rfl] at hx
              omega
        · exact hpools q hq
      · exact ⟨hpools, by trivial, by trivial⟩
    · exact ⟨hpools, hs, hv⟩

/-- A free preserves the allocator invariant. -/
theorem det_free_inv (a : det_allocator_t) (ptr : Option Nat)
    (hinv : det_inv a) : det_inv (det_free a ptr).state := by
  obtain ⟨hpools, hs, hv⟩ := hinv
  cases ptr with
  | none => exact ⟨hpools, hs, hv⟩
  | some addr =>
    cases hl : det_locate a.pools addr with
    | none => simp only [det_free, hl]; exact ⟨hpools, hs, hv⟩
    | some r =>
      obtain ⟨i, idx, off⟩ := r
      obtain ⟨hilen, hble, hlt, hbdef, hodef⟩ := det_locate_some hl
      by_cases hoff : off ≠ 0
      · simp only [det_free, hl]
        rw [if_pos hoff]
        exact ⟨hpools, hs, hv⟩
      · have hbs : 0 < (a.pools.getD i poolDefault).block_size := by
          rcases Nat.eq_zero_or_pos (a.pools.getD i poolDefault).block_size with
            h0 | h
          · rw [h0, Nat.mul_zero] at hlt
            omega
          · exact h
        have hidxcap : idx < (a.pools.getD i poolDefault).capacity := by
          rw [hbdef]
          rw [Nat.div_lt_iff_lt_mul hbs]
          omega
        cases hval : a.enable_validation &&
            !(det_bit (a.pools.getD i poolDefault).bitmap idx) with
        | true =>
          have : (det_free a (some addr)).state = a := by
            simp only [det_free, hl]
            rw [if_neg hoff, if_pos hval]
          rw [this]
          exact ⟨hpools, hs, hv⟩
        | false =>
          have hbtrue : det_bit (a.pools.getD i poolDefault).bitmap idx
              = true := by
            rw [hv] at hval
            cases hbit : det_bit (a.pools.getD i poolDefault).bitmap idx with
            | true => rfl
            | false => rw [hbit] at hval; exact absurd hval (by decide)
          have hvneg : ¬((a.enable_validation &&
              !(det_bit (a.pools.getD i poolDefault).bitmap idx)) = true) := by
            intro hcon
            rw [hval] at hcon
            exact absurd hcon (by decide)
          have hstate : (det_free a (some addr)).state =
              { a with
                pools := a.pools.set i
                  { a.pools.getD i poolDefault with
                    bitmap := (a.pools.getD i poolDefault).bitmap.set idx false
                    next := (a.pools.getD i poolDefault).next.set idx
                              (a.pools.getD i poolDefault).head
                    head := some idx
                    free_count := (a.pools.getD i poolDefault).free_count + 1
                    stats := statsOnFree a.enable_stats
                               (a.pools.getD i poolDefault).stats }
                used_memory :=
                  if a.enable_stats then
                    a.used_memory - (a.pools.getD i poolDefault).block_size
                  else a.used_memory } := by
            simp only [det_free, hl]
            rw [if_neg hoff, if_neg hvneg]
          rw [hstate]
          refine ⟨?_, hs, hv⟩
          intro q hq
          rcases det_mem_set _ _ _ _ hq with rfl | hq
          · exact det_pool_inv_spliced _ idx a.enable_stats hs
              (hpools _ (det_getD_mem a.pools i poolDefault hilen))
              hidxcap hbtrue
          · exact hpools q hq

/-- The zero-fill helper preserves the allocator invariant. -/
theorem det_memset0_inv (s : det_allocator_t) (addr n : Nat)
    (hinv : det_inv s) : det_inv (det_memset0 s addr n) := by
  obtain ⟨hpools, hs, hv⟩ := hinv
  cases hl : det_locate s.pools addr with
  | none => simp only [det_memset0, hl]; exact ⟨hpools, hs, hv⟩
  | some r =>
    obtain ⟨i, b, o⟩ := r
    simp only [det_memset0, hl]
    refine ⟨?_, hs, hv⟩
    intro q hq
    rcases det_mem_set _ _ _ _ hq with rfl | hq
    · by_cases hil : i < s.pools.length
      · exact det_pool_inv_data _ _
          (hpools _ (det_getD_mem s.pools i poolDefault hil))
      · have : s.pools.getD i poolDefault = poolDefault :=
          List.getD_eq_default _ _ (Nat.le_of_not_lt hil)
        rw [this]
        refine det_pool_inv_data poolDefault _ ⟨[], ?_, rfl, ?_, ?_, ?_, rfl, rfl, rfl⟩
        · exact det_free_chain.nil
        · exact List.nodup_nil
        · intro x hx
          exact absurd hx (List.not_mem_nil x)
        · intro x hx
          rw [show poolDefault.capacity = 0 from rfl] at hx
          omega
    · exact hpools q hq

/-- One operation preserves the allocator invariant. -/
theorem det_step_inv (a : det_allocator_t) (op : det_op) (hinv : det_inv a) :
    det_inv (det_step a op) := by
  cases op with
  | op_alloc sz => exact det_alloc_inv a sz hinv
  | op_calloc sz =>
    show det_inv (det_calloc a sz).state
    cases hp : (det_alloc a sz).ptr with
    | none =>
      have : det_calloc a sz = det_alloc a sz := by
        simp only [det_calloc, hp]
      rw [this]
      exact det_alloc_inv a sz hinv
    | some addr =>
      have : (det_calloc a sz).state =
          det_memset0 (det_alloc a sz).state addr sz := by
        simp only [det_calloc, hp]
      rw [this]
      exact det_memset0_inv _ addr sz (det_alloc_inv a sz hinv)
  | op_free p => exact det_free_inv a p hinv
  | op_reset =>
    obtain ⟨hpools, hs, hv⟩ := hinv
    show det_inv (det_reset_stats a)
    refine ⟨?_, hs, hv⟩
    intro q hq
    unfold det_reset_stats at hq
    rw [List.mem_map] at hq
    obtain ⟨p, hp, rfl⟩ := hq
    exact det_pool_inv_reset p (hpools p hp)

/-- Every operation sequence preserves the allocator invariant. -/
theorem det_run_inv (a : det_allocator_t) (ops : List det_op)
    (hinv : det_inv a) : det_inv (det_run a ops) := by
  induction ops generalizing a with
  | nil => exact hinv
  | cons op ops ih => exact ih (det_step a op) (det_step_inv a op hinv)

/-- C8: the peak statistics are monotonic: across every operation sequence
from any state, no per-pool `peak_usage` and not the allocator-wide
`peak_memory` ever decreases; and on an allocator initialized with
statistics and validation enabled, after a `det_reset_stats` the
current-usage gauge of every pool equals its number of outstanding
allocations (`capacity − free_count`), while the peak fields are unchanged
and the cumulative counters are zeroed. -/
theorem det_stats_peak_spec :
    (∀ (a : det_allocator_t) (ops : List det_op),
       List.Forall₂ (· ≤ ·) (det_peaks a) (det_peaks (det_run a ops)) ∧
       a.peak_memory ≤ (det_run a ops).peak_memory) ∧
    (∀ (mem : List Nat) (bufsz : Nat) (cfg : det_config_t)
       (a0 : det_allocator_t) (ops : List det_op),
       det_alloc_init (some mem) bufsz (some cfg) = some a0 →
       cfg.enable_stats = true → cfg.enable_validation = true →
       ((det_reset_stats (det_run a0 ops)).pools.map
           (fun p => p.stats.current_usage) =
         (det_run a0 ops).pools.map (fun p => p.capacity - p.free_count) ∧
        (det_reset_stats (det_run a0 ops)).pools.map
           (fun p => p.stats.peak_usage) =
         (det_run a0 ops).pools.map (fun p => p.stats.peak_usage) ∧
        (det_reset_stats (det_run a0 ops)).peak_memory =
          (det_run a0 ops).peak_memory ∧
        (det_reset_stats (det_run a0 ops)).pools.map
           (fun p => p.stats.total_allocs) =
         (det_run a0 ops).pools.map (fun _ => 0))) := by
  refine ⟨det_run_peaks, ?_⟩
  intro mem bufsz cfg a0 ops hinit hs hv
  have hinv := det_run_inv a0 ops (det_init_inv hinit hs hv)
  obtain ⟨hpools, -, -⟩ := hinv
  refine ⟨?_, det_reset_peaks _, rfl, ?_⟩
  · have h1 : (det_reset_stats (det_run a0 ops)).pools.map
        (fun p => p.stats.current_usage) =
        (det_run a0 ops).pools.map (fun p => p.stats.current_usage) := by
      unfold det_reset_stats
      dsimp only
      rw [List.map_map]
      rfl
    rw [h1]
    refine List.map_congr_left ?_
    intro p hp
    obtain ⟨L, -, -, -, -, -, -, -, hcur⟩ := hpools p hp
    exact hcur
  · unfold det_reset_stats
    dsimp only
    rw [List.map_map]
    rfl

/-- Concrete allocator for the C8 witness: one pool of four 64-byte
blocks, statistics and validation enabled. -/
def det_c8_alloc : det_allocator_t :=
  (det_alloc_init (some []) 328
    (some ⟨[⟨64, 4, false⟩], true, true, false⟩)).getD allocDefault

/-- Witness for C8: on the concrete stats-enabled allocator, after one
allocation and a reset the current-usage gauge equals the outstanding
count of every pool. -/
theorem det_stats_peak_spec_witness :
    (det_reset_stats (det_run det_c8_alloc [det_op.op_alloc 10])).pools.map
        (fun p => p.stats.current_usage) =
      (det_run det_c8_alloc [det_op.op_alloc 10]).pools.map
        (fun p => p.capacity - p.free_count) :=
  (det_stats_peak_spec.2 [] 328 ⟨[⟨64, 4, false⟩], true, true, false⟩
    det_c8_alloc [det_op.op_alloc 10] (by decide) rfl rfl).1
